import Mathlib

/-!
# Zone resolution engine of the domain registrar

A shallow embedding of `dns_data.go` (zone lookup, record matching, ANAME
flattening, answer synthesis) and the properties proved about it.

Go strings are byte sequences.  They are embedded as lists of characters, one
character per byte; every byte string is such a list, and the operations used
by the program (`len`, `strings.Split` and `strings.Join` on `"."`,
`strings.TrimRight` with cutset `"."`, `strings.HasSuffix`) act on the list
exactly as they act on the bytes.
-/

set_option autoImplicit false

namespace DomainRegistrar

/-! ## Strings -/

/-- A Go string: a sequence of bytes, one character per byte. -/
abbrev GoString := List Char

/-- The one-byte string `"."`. -/
def dot : GoString := ['.']

/-- `strings.Split(s, sep)` for a one-byte separator `sep`: the substrings of `s`
between the occurrences of `sep`; a string without `sep` (the empty one included)
gives the one-element list `[s]`. -/
def stringsSplit (s : GoString) (sep : Char) : List GoString :=
  match s with
  | [] => [[]]
  | c :: cs =>
    if c = sep then [] :: stringsSplit cs sep
    else
      match stringsSplit cs sep with
      | [] => [[c]]
      | w :: ws => (c :: w) :: ws

/-- `strings.Join(elems, sep)`. -/
def stringsJoin (elems : List GoString) (sep : GoString) : GoString :=
  match elems with
  | [] => []
  | [x] => x
  | x :: y :: rest => x ++ sep ++ stringsJoin (y :: rest) sep

/-- `strings.TrimRight(s, cutset)` for a one-byte cutset: `s` without its trailing
run of that byte. -/
def stringsTrimRight (s : GoString) (cut : Char) : GoString :=
  s.rdropWhile (fun c => c == cut)

/-- `strings.HasSuffix(s, suffix)`. -/
def stringsHasSuffix (s suffix : GoString) : Bool :=
  suffix.isSuffixOf s

/-! ## Data model -/

/-- `RRSet` of `dns_data.go`; `Ttl` is a `uint16`.  The field `Type` is written
`Type_`, `Type` being a reserved word. -/
structure RRSet where
  Host : GoString
  Type_ : GoString
  Ttl : Nat
  Values : List GoString
  deriving DecidableEq, Repr

/-- `ZoneMap`, a Go `map[string][]RRSet`.  The program only ever looks keys up, so
the map is its lookup function: `zoneMap k = some rrSets` when `k` is a key. -/
abbrev ZoneMap := GoString → Option (List RRSet)

/-- `Record` of `dns_data.go`. -/
structure Record where
  ZoneName : GoString
  Host : GoString
  Type_ : GoString
  Ttl : Nat
  Value : GoString
  deriving DecidableEq, Repr

/-- `Zone` of `dns_data.go`. -/
structure Zone where
  Name : GoString
  RRSets : List RRSet
  deriving DecidableEq, Repr

/-! ## Zone locator -/

/-- `GetSearchingZoneNames`: one candidate per index `i` of the split, the labels
from `i` on joined by `"."`, appended in index order. -/
def GetSearchingZoneNames (domain : GoString) : List GoString :=
  let slices := stringsSplit domain '.'
  (List.range slices.length).foldl
    (fun zoneNames i => zoneNames ++ [stringsJoin (slices.drop i) dot]) []

/-- The loop of `ZoneMap.FindZone`: the first candidate that is a key returns. -/
def FindZone.loop (zoneMap : ZoneMap) : List GoString → Option Zone
  | [] => none
  | zoneName :: rest =>
    match zoneMap zoneName with
    | some rrSets => some { Name := zoneName, RRSets := rrSets }
    | none => FindZone.loop zoneMap rest

/-- `ZoneMap.FindZone`; `none` is the nil pointer. -/
def FindZone (zoneMap : ZoneMap) (domain : GoString) : Option Zone :=
  FindZone.loop zoneMap (GetSearchingZoneNames domain)

/-- The proper suffixes of a name that start right after a `.`, longest first. -/
def dotSuffixes : GoString → List GoString
  | [] => []
  | c :: cs => if c = '.' then cs :: dotSuffixes cs else dotSuffixes cs

/-- That the name `n` ends with the zone name `z` on a label boundary: `n` is `z`,
or `n` ends with `"." ++ z`. -/
def EndsWithZone (n z : GoString) : Prop :=
  n = z ∨ stringsHasSuffix n (dot ++ z) = true

instance (n z : GoString) : Decidable (EndsWithZone n z) := by
  unfold EndsWithZone; infer_instance

/-- A zone map whose keys are exactly `b.c` and `c`, both zones without RRSets. -/
def exampleZoneMap : ZoneMap := fun k =>
  if k = "b.c".toList then some [] else if k = "c".toList then some [] else none

/-! ## Library and environment -/

/-- `dns.TypeA`. -/
def TypeA : Nat := 1
/-- `dns.TypeSOA`. -/
def TypeSOA : Nat := 6
/-- `dns.TypeAAAA`. -/
def TypeAAAA : Nat := 28
/-- `dns.TypeANY`. -/
def TypeANY : Nat := 255
/-- `dns.RcodeSuccess`, the zero value of the `rcode` result. -/
def RcodeSuccess : Nat := 0
/-- `dns.RcodeServerFailure`. -/
def RcodeServerFailure : Nat := 2
/-- `dns.RcodeNameError`. -/
def RcodeNameError : Nat := 3

/-- The library functions the matcher and the ANAME resolver call, taken as
parameters: `typeString t` is `dns.Type(t).String()`, the mnemonic of a type code,
and `ipString a` is `net.IP.String()` of the address bytes `a`. -/
structure Lib where
  typeString : Nat → GoString
  ipString : List Nat → GoString

/-- The codec of the DNS library, over its record type `RR`: `NewRR text` is
`dns.NewRR(text)` (`none` when it returns an error), `Rrtype rr` is
`rr.Header().Rrtype`, and `setSerial rr v` is `rr` after `soa.Serial = v`. -/
structure Codec (RR : Type) where
  NewRR : GoString → Option RR
  Rrtype : RR → Nat
  setSerial : RR → Nat → RR

/-- What one query reads from the file system and the clock: `ReadFile` is the
result of `os.ReadFile(dbFile)` (content, `err != nil`), `Unmarshal content` is
`db.Zones` after `yaml.Unmarshal(content, &db)` on a zero `db` (`none` is the nil
map) with `err != nil`, `Stat` is the modification time of `dbFile` in Unix
seconds (`none` when `os.Stat` fails), `Now` is `time.Now()` in Unix seconds. -/
structure Env where
  ReadFile : List Nat × Bool
  Unmarshal : List Nat → Option ZoneMap × Bool
  Stat : Option Int
  Now : Int

/-- An answer of an upstream response as `ResolveHost` reads it: the header's
`Rrtype` and the address carried by an A or AAAA record. -/
structure UpstreamRR where
  Rrtype : Nat
  Addr : List Nat
  deriving DecidableEq, Repr

/-- The upstream transport `client.Exchange(request, upstreamServer)` for the
question `(fqdn, qtype, IN)`, over a state `σ` of the outside world: it returns
the answer section (`none` when `err != nil`) and the next state.  Two exchanges
for the same question may answer differently. -/
abbrev Upstream (σ : Type) := σ → GoString → Nat → Option (List UpstreamRR) × σ

/-! ## ANAME resolver -/

/-- `DNSResolveResult` of `dns_data.go`. -/
structure DNSResolveResult where
  Addr : List Nat
  Type_ : Nat
  deriving DecidableEq, Repr

/-- The body of the answer loop of `ResolveHost`. -/
def ResolveHost.step (result : List DNSResolveResult) (answers : UpstreamRR) :
    List DNSResolveResult :=
  if answers.Rrtype = TypeA then result ++ [{ Addr := answers.Addr, Type_ := TypeA }]
  else if answers.Rrtype = TypeAAAA then
    result ++ [{ Addr := answers.Addr, Type_ := TypeAAAA }]
  else result

/-- `ResolveHost`: the pair `(result, err != nil)` and the next state. -/
def ResolveHost {σ : Type} (exchange : Upstream σ) (s : σ) (fqdn : GoString)
    (requestRecordType : Nat) : (List DNSResolveResult × Bool) × σ :=
  match exchange s fqdn requestRecordType with
  | (none, s1) => (([], true), s1)
  | (some answer, s1) => ((answer.foldl ResolveHost.step [], false), s1)

/-- The name `ResolveANAME` queries for one value. -/
def ResolveANAME.fqdn (zone : Zone) (value : GoString) : GoString :=
  if !stringsHasSuffix value dot then value ++ dot ++ zone.Name ++ dot else value

/-- The record `ResolveANAME` appends for one resolved address. -/
def ResolveANAME.record (lib : Lib) (zone : Zone) (rrSet : RRSet)
    (result : DNSResolveResult) : Record :=
  { ZoneName := zone.Name, Host := rrSet.Host, Ttl := rrSet.Ttl,
    Type_ := lib.typeString result.Type_, Value := lib.ipString result.Addr }

/-- The body of the address-family loop of `ResolveANAME`: one upstream attempt;
a failed attempt leaves `records` as it is. -/
def ResolveANAME.family {σ : Type} (lib : Lib) (exchange : Upstream σ) (zone : Zone)
    (rrSet : RRSet) (fqdn : GoString) (st : List Record × σ) (requestRecordType : Nat) :
    List Record × σ :=
  match ResolveHost exchange st.2 fqdn requestRecordType with
  | ((_, true), s1) => (st.1, s1)
  | ((resolveResult, false), s1) =>
    (resolveResult.foldl
      (fun records result => records ++ [ResolveANAME.record lib zone rrSet result]) st.1, s1)

/-- The body of the value loop of `ResolveANAME`. -/
def ResolveANAME.value {σ : Type} (lib : Lib) (exchange : Upstream σ) (zone : Zone)
    (rrSet : RRSet) (st : List Record × σ) (value : GoString) : List Record × σ :=
  [TypeA, TypeAAAA].foldl
    (ResolveANAME.family lib exchange zone rrSet (ResolveANAME.fqdn zone value)) st

/-- `ResolveANAME`: the records and the state after the upstream exchanges. -/
def ResolveANAME {σ : Type} (lib : Lib) (exchange : Upstream σ) (zone : Zone)
    (rrSet : RRSet) (s : σ) : List Record × σ :=
  rrSet.Values.foldl (ResolveANAME.value lib exchange zone rrSet) ([], s)

/-! ## Record matcher -/

/-- The host label `FindZoneRecords` derives, once the slice is in range. -/
def FindZoneRecords.host (zone : Zone) (domain : GoString) : GoString :=
  stringsTrimRight (domain.take (domain.length - zone.Name.length)) '.'

/-- The record `FindZoneRecords` appends for one value of a matching RRSet. -/
def FindZoneRecords.record (zone : Zone) (host : GoString) (rrSet : RRSet)
    (value : GoString) : Record :=
  { ZoneName := zone.Name, Host := host, Type_ := rrSet.Type_, Ttl := rrSet.Ttl,
    Value := value }

/-- The body of the RRSet loop of `FindZoneRecords`. -/
def FindZoneRecords.step {σ : Type} (lib : Lib) (exchange : Upstream σ) (zone : Zone)
    (host : GoString) (recordType : Nat) (st : List Record × σ) (rrSet : RRSet) :
    List Record × σ :=
  if rrSet.Host ≠ host then st
  else
    let records :=
      if rrSet.Type_ = lib.typeString recordType ∨ recordType = TypeANY
          ∨ rrSet.Type_ = "CNAME".toList then
        rrSet.Values.foldl
          (fun records value => records ++ [FindZoneRecords.record zone host rrSet value]) st.1
      else st.1
    if rrSet.Type_ = "ANAME".toList
        ∧ (recordType = TypeANY ∨ recordType = TypeA ∨ recordType = TypeAAAA) then
      let r := ResolveANAME lib exchange zone rrSet st.2
      (records ++ r.1, r.2)
    else (records, st.2)

/-- `Zone.FindZoneRecords`; `none` is the run-time panic of the slice expression
`domain[:len(domain)-len(zone.Name)]` when the zone name is longer than the domain. -/
def FindZoneRecords {σ : Type} (lib : Lib) (exchange : Upstream σ) (zone : Zone)
    (domain : GoString) (recordType : Nat) (s : σ) : Option (List Record × σ) :=
  if zone.Name.length ≤ domain.length then
    some (zone.RRSets.foldl
      (FindZoneRecords.step lib exchange zone (FindZoneRecords.host zone domain) recordType)
      ([], s))
  else none

/-! ## Answer synthesizer -/

/-- The conversion `uint32(x)` of an `int64`. -/
def uint32 (x : Int) : Nat := (x % 2 ^ 32).toNat

/-- `UpdateSOASerialNumber`. -/
def UpdateSOASerialNumber {RR : Type} (codec : Codec RR) (env : Env) (rr : RR) : RR :=
  let modifiedTime :=
    match env.Stat with
    | none => env.Now
    | some t => t
  codec.setSerial rr (uint32 modifiedTime)

/-- The host `CreateRR` writes. -/
def CreateRR.host (record : Record) : GoString :=
  if record.Host = [] then "@".toList else record.Host

/-- The TTL `CreateRR` writes. -/
def CreateRR.ttl (record : Record) : Nat :=
  if record.Ttl ≤ 0 then 60 else record.Ttl

/-- The text `CreateRR` hands to `dns.NewRR`:
`"$ORIGIN %s\n%s %d IN %s %s"` of zone name, host, TTL, type and value. -/
def CreateRR.text (record : Record) : GoString :=
  "$ORIGIN ".toList ++ record.ZoneName ++ "\n".toList ++ CreateRR.host record ++ " ".toList
    ++ Nat.toDigits 10 (CreateRR.ttl record) ++ " IN ".toList ++ record.Type_ ++ " ".toList
    ++ record.Value

/-- `Record.CreateRR`; `none` is the nil record. -/
def CreateRR {RR : Type} (codec : Codec RR) (env : Env) (record : Record) : Option RR :=
  match codec.NewRR (CreateRR.text record) with
  | none => none
  | some rr =>
    if codec.Rrtype rr = TypeSOA then some (UpdateSOASerialNumber codec env rr) else some rr

/-! ## Query entry point -/

/-- `LoadDatabase`: both errors are only logged, the result is `db.Zones`. -/
def LoadDatabase (env : Env) : Option ZoneMap :=
  (env.Unmarshal env.ReadFile.1).1

/-- The body of the record loop of `GetZoneRRSet`. -/
def GetZoneRRSet.step {RR : Type} (codec : Codec RR) (env : Env) (rrSet : List RR)
    (record : Record) : List RR :=
  match CreateRR codec env record with
  | some rr => rrSet ++ [rr]
  | none => rrSet

/-- `GetZoneRRSet`: the pair `(rrSet, rcode)` and the state after the upstream
exchanges; `none` is a panic of `FindZoneRecords`. -/
def GetZoneRRSet {σ RR : Type} (lib : Lib) (codec : Codec RR) (env : Env)
    (exchange : Upstream σ) (domain : GoString) (recordType : Nat) (s : σ) :
    Option ((List RR × Nat) × σ) :=
  match LoadDatabase env with
  | none => some (([], RcodeServerFailure), s)
  | some db =>
    match FindZone db domain with
    | none => some (([], RcodeNameError), s)
    | some zone =>
      match FindZoneRecords lib exchange zone domain recordType s with
      | none => none
      | some (records, s1) =>
        some ((records.foldl (GetZoneRRSet.step codec env) [], RcodeSuccess), s1)

/-! ## The matcher and the resolver as the specification words them -/

/-- Concatenation of per-element contributions, each produced in the state the
previous one left: the contributions in list order, and the final state. -/
def concatState {α β σ : Type} (c : α → σ → List β × σ) : List α → σ → List β × σ
  | [], s => ([], s)
  | x :: xs, s =>
    ((c x s).1 ++ (concatState c xs (c x s).2).1, (concatState c xs (c x s).2).2)

/-- The direct-match rule of the record matcher: the queried type's mnemonic, the
wildcard ANY, or a CNAME RRSet. -/
def directMatch (lib : Lib) (recordType : Nat) (rrSet : RRSet) : Prop :=
  rrSet.Type_ = lib.typeString recordType ∨ recordType = TypeANY
    ∨ rrSet.Type_ = "CNAME".toList

instance (lib : Lib) (recordType : Nat) (rrSet : RRSet) :
    Decidable (directMatch lib recordType rrSet) := by
  unfold directMatch; infer_instance

/-- The ANAME rule of the record matcher: an ANAME RRSet under ANY, A or AAAA. -/
def anameMatch (recordType : Nat) (rrSet : RRSet) : Prop :=
  rrSet.Type_ = "ANAME".toList
    ∧ (recordType = TypeANY ∨ recordType = TypeA ∨ recordType = TypeAAAA)

instance (recordType : Nat) (rrSet : RRSet) : Decidable (anameMatch recordType rrSet) := by
  unfold anameMatch; infer_instance

/-- The records of the direct-match rule for one RRSet: one per value, in order. -/
def directRecords (lib : Lib) (zone : Zone) (host : GoString) (recordType : Nat)
    (rrSet : RRSet) : List Record :=
  if directMatch lib recordType rrSet then
    rrSet.Values.map (fun v =>
      ({ ZoneName := zone.Name, Host := host, Type_ := rrSet.Type_, Ttl := rrSet.Ttl,
         Value := v } : Record))
  else []

/-- The contribution of one RRSet to the answer, as §4.3 words it: nothing when the
host differs; otherwise the direct-match records, followed by the output of the ANAME
resolver when the ANAME rule applies. -/
def contribution {σ : Type} (lib : Lib) (exchange : Upstream σ) (zone : Zone)
    (host : GoString) (recordType : Nat) (rrSet : RRSet) (s : σ) : List Record × σ :=
  if rrSet.Host ≠ host then ([], s)
  else if anameMatch recordType rrSet then
    (directRecords lib zone host recordType rrSet
      ++ (ResolveANAME lib exchange zone rrSet s).1, (ResolveANAME lib exchange zone rrSet s).2)
  else (directRecords lib zone host recordType rrSet, s)

/-- The A and AAAA answers of one upstream attempt; a failed attempt has none. -/
def attemptAnswers {σ : Type} (exchange : Upstream σ) (fqdn : GoString)
    (requestRecordType : Nat) (s : σ) : List UpstreamRR × σ :=
  match exchange s fqdn requestRecordType with
  | (none, s1) => ([], s1)
  | (some answer, s1) =>
    (answer.filter (fun a => a.Rrtype = TypeA ∨ a.Rrtype = TypeAAAA), s1)

/-- The A and AAAA answers of all attempts of one ANAME resolution: for each value
in order, the attempt for A and then the attempt for AAAA. -/
def upstreamAnswers {σ : Type} (exchange : Upstream σ) (zone : Zone)
    (values : List GoString) (s : σ) : List UpstreamRR × σ :=
  concatState
    (fun value => concatState
      (fun requestRecordType => attemptAnswers exchange (ResolveANAME.fqdn zone value)
        requestRecordType) [TypeA, TypeAAAA])
    values s

/-- The record §4.4 builds from one upstream answer: the RRSet's host and TTL, the
answer's address family as type and its address in textual form as value. -/
def answerRecord (lib : Lib) (zone : Zone) (rrSet : RRSet) (a : UpstreamRR) : Record :=
  { ZoneName := zone.Name, Host := rrSet.Host, Type_ := lib.typeString a.Rrtype,
    Ttl := rrSet.Ttl, Value := lib.ipString a.Addr }

/-- The records of one upstream attempt: one per A or AAAA answer; a failed attempt
contributes the empty list. -/
def attemptRecords {σ : Type} (lib : Lib) (exchange : Upstream σ) (zone : Zone)
    (rrSet : RRSet) (fqdn : GoString) (requestRecordType : Nat) (s : σ) : List Record × σ :=
  (((attemptAnswers exchange fqdn requestRecordType s).1).map (answerRecord lib zone rrSet),
    (attemptAnswers exchange fqdn requestRecordType s).2)

/-- The upstream with every failing attempt replaced by a successful attempt with
zero answers. -/
def healed {σ : Type} (exchange : Upstream σ) : Upstream σ := fun s fqdn t =>
  match exchange s fqdn t with
  | (none, s1) => (some [], s1)
  | (some answer, s1) => (some answer, s1)

/-! ## Concrete instances -/

/-- An instance of the library parameters: the mnemonics of A, CNAME, SOA, AAAA and
ANY, `TYPE` and the number for the other codes, and addresses in dotted decimal. -/
def exampleLib : Lib where
  typeString := fun t =>
    if t = 1 then "A".toList else if t = 5 then "CNAME".toList
    else if t = 6 then "SOA".toList else if t = 28 then "AAAA".toList
    else if t = 255 then "ANY".toList else "TYPE".toList ++ Nat.toDigits 10 t
  ipString := fun a => stringsJoin (a.map (Nat.toDigits 10)) dot

/-- An upstream that fails every exchange. -/
def unreachableUpstream : Upstream Unit := fun s _ _ => (none, s)

/-- An upstream whose state counts the exchanges: an A question gets an A answer and
a CNAME answer, an AAAA question fails. -/
def exampleUpstream : Upstream Nat := fun s _ t =>
  if t = TypeA then
    (some [{ Rrtype := 1, Addr := [192, 0, 2, s] }, { Rrtype := 5, Addr := [] }], s + 1)
  else (none, s + 1)

/-- The zone `example.com` with one A RRSet at the apex. -/
def exampleComZone : Zone :=
  { Name := "example.com".toList,
    RRSets := [{ Host := [], Type_ := "A".toList, Ttl := 300, Values := ["1.2.3.4".toList] }] }

/-- A zone `example.org` with a CNAME RRSet at `www`, an A RRSet and an ANAME RRSet
at the apex. -/
def exampleOrgZone : Zone :=
  { Name := "example.org".toList,
    RRSets :=
      [{ Host := [], Type_ := "A".toList, Ttl := 0, Values := ["192.0.2.1".toList] },
       { Host := "www".toList, Type_ := "CNAME".toList, Ttl := 120,
         Values := ["example.org.".toList, "alt".toList] },
       { Host := [], Type_ := "ANAME".toList, Ttl := 30, Values := ["target".toList] }] }

/-- A codec that rejects every text, so that every record is dropped. -/
def rejectingCodec : Codec Unit where
  NewRR := fun _ => none
  Rrtype := fun _ => 0
  setSerial := fun rr _ => rr

/-- An environment whose database holds the zones `example.com` and `example.org`. -/
def exampleEnv : Env where
  ReadFile := ([], false)
  Unmarshal := fun _ =>
    (some (fun k =>
      if k = exampleComZone.Name then some exampleComZone.RRSets
      else if k = exampleOrgZone.Name then some exampleOrgZone.RRSets else none), false)
  Stat := some 1700000000
  Now := 1700000999

/-- An environment whose database file is missing: the load yields the nil map. -/
def failedEnv : Env where
  ReadFile := ([], true)
  Unmarshal := fun _ => (none, false)
  Stat := none
  Now := 1700000999

/-! ## Query log -/

/-- The upstream `exchange` with a log of the questions asked: every exchange
appends its question `(fqdn, qtype)` to the log and is otherwise that of `exchange`. -/
def traced {σ : Type} (exchange : Upstream σ) : Upstream (σ × List (GoString × Nat)) :=
  fun st fqdn t =>
    ((exchange st.1 fqdn t).1, ((exchange st.1 fqdn t).2, st.2 ++ [(fqdn, t)]))

/-- A codec whose records are the text parsed and a serial: it rejects the texts that
end with `!`, takes a text with ` IN SOA ` for an SOA record and any other for an A
record, and stores the serial it is given. -/
def sampleCodec : Codec (GoString × Nat) where
  NewRR := fun text => if text.getLast? = some '!' then none else some (text, 0)
  Rrtype := fun rr => if " IN SOA ".toList <:+: rr.1 then TypeSOA else TypeA
  setSerial := fun rr v => (rr.1, v)

/-- An environment whose database file was last modified at Unix time `t`. -/
def envModifiedAt (t : Int) : Env where
  ReadFile := ([], false)
  Unmarshal := fun _ => (none, false)
  Stat := some t
  Now := 1700000999

/-- The zone `example.net` with an A RRSet at the apex whose second value ends with
`!`. -/
def exampleNetZone : Zone :=
  { Name := "example.net".toList,
    RRSets := [{ Host := [], Type_ := "A".toList, Ttl := 300,
                 Values := ["192.0.2.7".toList, "oops!".toList, "192.0.2.9".toList] }] }

/-- An environment whose database holds the zone `example.net`. -/
def exampleNetEnv : Env where
  ReadFile := ([], false)
  Unmarshal := fun _ =>
    (some (fun k => if k = exampleNetZone.Name then some exampleNetZone.RRSets else none),
      false)
  Stat := some 1700000000
  Now := 1700000999

/-- An upstream that answers an A question with one A record and an AAAA question with
one AAAA record, and fails any other. -/
def dualStackUpstream : Upstream Unit := fun s _ t =>
  if t = TypeA then (some [{ Rrtype := 1, Addr := [192, 0, 2, 1] }], s)
  else if t = TypeAAAA then
    (some [{ Rrtype := 28, Addr := [32, 1, 13, 184, 0, 0, 0, 0, 0, 0, 0, 0, 0, 0, 0, 1] }], s)
  else (none, s)

/-- A zone `example.io` whose apex has an ANAME RRSet alone, next to an A RRSet at
`www`. -/
def exampleIoZone : Zone :=
  { Name := "example.io".toList,
    RRSets :=
      [{ Host := [], Type_ := "ANAME".toList, Ttl := 30, Values := ["cdn.example.net.".toList] },
       { Host := "www".toList, Type_ := "A".toList, Ttl := 60, Values := ["192.0.2.8".toList] }] }

/-- An environment whose database file holds the zone `example.com` with a TTL that
does not fit the field: the parse reports an error and leaves a zone map in which that
TTL is unset. -/
def partialParseEnv : Env where
  ReadFile := ([], false)
  Unmarshal := fun _ =>
    (some (fun k =>
      if k = "example.com".toList then
        some [{ Host := [], Type_ := "A".toList, Ttl := 0, Values := ["1.2.3.4".toList] }]
      else none), true)
  Stat := some 1700000000
  Now := 1700000999

/-- An environment whose database file is read and parsed without error and holds no
zone mapping: the load yields the nil map. -/
def emptyFileEnv : Env where
  ReadFile := ([], false)
  Unmarshal := fun _ => (none, false)
  Stat := some 1700000000
  Now := 1700000999

end DomainRegistrar

namespace DomainRegistrar

/-! ## Loops that only append -/

/-- A loop that appends one element per iteration appends the mapped list. -/
theorem foldl_append_singleton {α β : Type} (f : α → β) (l : List α) (init : List β) :
    l.foldl (fun acc x => acc ++ [f x]) init = init ++ l.map f := by
  induction l generalizing init with
  | nil => simp
  | cons x xs ih => simp [ih]

/-! ## Candidate zone names -/

theorem stringsSplit_ne_nil (s : GoString) (sep : Char) : stringsSplit s sep ≠ [] := by
  cases s with
  | nil => simp [stringsSplit]
  | cons c cs =>
    simp only [stringsSplit]
    split
    · simp
    · split <;> simp

theorem stringsJoin_cons_of_ne_nil (x : GoString) (l : List GoString) (sep : GoString)
    (h : l ≠ []) : stringsJoin (x :: l) sep = x ++ sep ++ stringsJoin l sep := by
  cases l with
  | nil => exact absurd rfl h
  | cons y ys => simp [stringsJoin]

theorem stringsJoin_cons_cons (c : Char) (w : GoString) (ws : List GoString)
    (sep : GoString) : stringsJoin ((c :: w) :: ws) sep = c :: stringsJoin (w :: ws) sep := by
  cases ws with
  | nil => simp [stringsJoin]
  | cons y ys => simp [stringsJoin]

/-- Joining what `strings.Split` cut gives the string back. -/
theorem stringsJoin_stringsSplit (s : GoString) :
    stringsJoin (stringsSplit s '.') dot = s := by
  induction s with
  | nil => simp [stringsSplit, stringsJoin]
  | cons c cs ih =>
    simp only [stringsSplit]
    split
    · next h =>
      rw [stringsJoin_cons_of_ne_nil _ _ _ (stringsSplit_ne_nil cs '.'), ih, h]
      simp [dot]
    · split
      · next h => exact absurd h (stringsSplit_ne_nil cs '.')
      · next w ws h =>
        rw [stringsJoin_cons_cons, ← h, ih]

/-- The candidates as a map over the indices of the split. -/
theorem GetSearchingZoneNames_eq_map (domain : GoString) :
    GetSearchingZoneNames domain
      = (List.range (stringsSplit domain '.').length).map
          (fun i => stringsJoin ((stringsSplit domain '.').drop i) dot) := by
  simp [GetSearchingZoneNames, foldl_append_singleton]

theorem range_map_drop_cons {β : Type} (f : List GoString → β) (x : GoString)
    (xs : List GoString) :
    (List.range (x :: xs).length).map (fun i => f ((x :: xs).drop i))
      = f (x :: xs) :: (List.range xs.length).map (fun i => f (xs.drop i)) := by
  simp [List.range_succ_eq_map, List.map_map, Function.comp_def]

/-- The candidates of a name: the name itself, then its suffixes after each `.`. -/
theorem GetSearchingZoneNames_eq (domain : GoString) :
    GetSearchingZoneNames domain = domain :: dotSuffixes domain := by
  induction domain with
  | nil => decide
  | cons c cs ih =>
    rw [GetSearchingZoneNames_eq_map] at ih ⊢
    have hj := stringsJoin_stringsSplit (c :: cs)
    simp only [stringsSplit, dotSuffixes] at hj ⊢
    split
    · next h =>
      rw [if_pos h] at hj
      rw [range_map_drop_cons (fun l => stringsJoin l dot), hj, ih]
    · next h =>
      rw [if_neg h] at hj
      revert hj ih
      cases hs : stringsSplit cs '.' with
      | nil => exact absurd hs (stringsSplit_ne_nil cs '.')
      | cons w ws =>
        intro ih hj
        simp only at hj ⊢
        rw [range_map_drop_cons (fun l => stringsJoin l dot)] at ih ⊢
        rw [hj]
        simp only [List.cons.injEq] at ih
        rw [ih.2]

/-- Membership in `dotSuffixes`: the name ends with `.` followed by the suffix. -/
theorem mem_dotSuffixes (k d : GoString) :
    k ∈ dotSuffixes d ↔ (dot ++ k) <:+ d := by
  induction d with
  | nil => simp [dotSuffixes, dot]
  | cons c cs ih =>
    simp only [dotSuffixes]
    rw [List.suffix_cons_iff]
    split
    · next h =>
      subst h
      simp only [List.mem_cons, ih]
      constructor
      · rintro (rfl | h)
        · left; rfl
        · right; exact h
      · rintro (h | h)
        · left; simpa [dot, eq_comm] using h
        · right; exact h
    · next h =>
      rw [ih]
      constructor
      · intro hk; right; exact hk
      · rintro (hk | hk)
        · simp [dot] at hk; exact absurd hk.1.symm h
        · exact hk

/-- A candidate is the name itself or a suffix of it on a label boundary. -/
theorem mem_GetSearchingZoneNames (k d : GoString) :
    k ∈ GetSearchingZoneNames d ↔ (d = k ∨ (dot ++ k) <:+ d) := by
  rw [GetSearchingZoneNames_eq, List.mem_cons, mem_dotSuffixes]
  constructor
  · rintro (h | h)
    · left; exact h.symm
    · right; exact h
  · rintro (h | h)
    · left; exact h.symm
    · right; exact h

theorem length_lt_of_mem_dotSuffixes (k d : GoString) (h : k ∈ dotSuffixes d) :
    k.length < d.length := by
  have := ((mem_dotSuffixes k d).1 h).length_le
  simp [dot] at this
  omega

/-- The candidates come in strictly decreasing length. -/
theorem dotSuffixes_pairwise (d : GoString) :
    (dotSuffixes d).Pairwise (fun a b => b.length < a.length) := by
  induction d with
  | nil => simp [dotSuffixes]
  | cons c cs ih =>
    simp only [dotSuffixes]
    split
    · exact List.pairwise_cons.2 ⟨fun b hb => length_lt_of_mem_dotSuffixes b cs hb, ih⟩
    · exact ih

theorem GetSearchingZoneNames_pairwise (d : GoString) :
    (GetSearchingZoneNames d).Pairwise (fun a b => b.length < a.length) := by
  rw [GetSearchingZoneNames_eq]
  exact List.pairwise_cons.2
    ⟨fun b hb => length_lt_of_mem_dotSuffixes b d hb, dotSuffixes_pairwise d⟩

/-! ## Zone locator -/

theorem endsWithZone_iff_mem (n z : GoString) :
    EndsWithZone n z ↔ z ∈ GetSearchingZoneNames n := by
  rw [mem_GetSearchingZoneNames]
  simp [EndsWithZone, stringsHasSuffix]

theorem eq_of_mem_of_length_eq (l : List GoString)
    (hp : l.Pairwise (fun a b => b.length < a.length)) (a b : GoString)
    (ha : a ∈ l) (hb : b ∈ l) (h : a.length = b.length) : a = b := by
  induction l with
  | nil => simp at ha
  | cons x xs ih =>
    obtain ⟨hx, hxs⟩ := List.pairwise_cons.1 hp
    rcases List.mem_cons.1 ha with rfl | ha1 <;> rcases List.mem_cons.1 hb with rfl | hb1
    · rfl
    · have := hx b hb1; omega
    · have := hx a ha1; omega
    · exact ih hxs ha1 hb1

theorem FindZone.loop_eq_some_iff (db : ZoneMap) (l : List GoString) (z : Zone) :
    FindZone.loop db l = some z ↔
      ∃ pre post, l = pre ++ z.Name :: post ∧ (∀ k ∈ pre, db k = none)
        ∧ db z.Name = some z.RRSets := by
  induction l with
  | nil => simp [FindZone.loop]
  | cons x xs ih =>
    simp only [FindZone.loop]
    cases hx : db x with
    | some rr =>
      simp only [Option.some.injEq]
      constructor
      · rintro rfl
        exact ⟨[], xs, rfl, by simp, hx⟩
      · rintro ⟨pre, post, hl, hpre, hz⟩
        cases pre with
        | nil =>
          simp only [List.nil_append, List.cons.injEq] at hl
          obtain ⟨rfl, -⟩ := hl
          rw [hx] at hz
          cases z
          simp_all
        | cons p ps =>
          simp only [List.cons_append, List.cons.injEq] at hl
          have := hpre p (by simp)
          rw [← hl.1, hx] at this
          exact absurd this (by simp)
    | none =>
      simp only
      rw [ih]
      constructor
      · rintro ⟨pre, post, hl, hpre, hz⟩
        refine ⟨x :: pre, post, by simp [hl], ?_, hz⟩
        intro k hk
        rcases List.mem_cons.1 hk with rfl | hk
        · exact hx
        · exact hpre k hk
      · rintro ⟨pre, post, hl, hpre, hz⟩
        cases pre with
        | nil =>
          simp only [List.nil_append, List.cons.injEq] at hl
          rw [← hl.1, hx] at hz
          exact absurd hz (by simp)
        | cons p ps =>
          simp only [List.cons_append, List.cons.injEq] at hl
          exact ⟨ps, post, hl.2, fun k hk => hpre k (by simp [hk]), hz⟩

theorem FindZone.loop_eq_none_iff (db : ZoneMap) (l : List GoString) :
    FindZone.loop db l = none ↔ ∀ k ∈ l, db k = none := by
  induction l with
  | nil => simp [FindZone.loop]
  | cons x xs ih =>
    simp only [FindZone.loop]
    cases hx : db x with
    | some rr => simp [hx]
    | none => simp [hx, ih]

/-- The zone found is a key, a candidate, and no candidate that is a key is longer. -/
theorem FindZone_some_longest (db : ZoneMap) (d : GoString) (z : Zone)
    (h : FindZone db d = some z) :
    db z.Name = some z.RRSets ∧ EndsWithZone d z.Name
      ∧ ∀ k, (db k).isSome → EndsWithZone d k → k.length ≤ z.Name.length := by
  obtain ⟨pre, post, hl, hpre, hz⟩ := (FindZone.loop_eq_some_iff db _ z).1 h
  refine ⟨hz, ?_, ?_⟩
  · rw [endsWithZone_iff_mem, hl]; simp
  · intro k hk hend
    rw [endsWithZone_iff_mem, hl] at hend
    have hp := GetSearchingZoneNames_pairwise d
    rw [hl, List.pairwise_append] at hp
    rcases List.mem_append.1 hend with hk1 | hk1
    · rw [hpre k hk1] at hk
      exact absurd hk (by simp)
    · rcases List.mem_cons.1 hk1 with rfl | hk2
      · exact le_refl _
      · exact le_of_lt ((List.pairwise_cons.1 hp.2.1).1 k hk2)

theorem FindZone_ne_none_of_key (db : ZoneMap) (d k : GoString) (hk : (db k).isSome)
    (hend : EndsWithZone d k) : FindZone db d ≠ none := by
  intro h
  have := (FindZone.loop_eq_none_iff db _).1 h k ((endsWithZone_iff_mem d k).1 hend)
  rw [this] at hk
  exact absurd hk (by simp)

/-- The longest key among the candidates is the zone found. -/
theorem FindZone_eq_of_longest (db : ZoneMap) (d k : GoString) (rr : List RRSet)
    (hk : db k = some rr) (hend : EndsWithZone d k)
    (hmax : ∀ j, (db j).isSome → EndsWithZone d j → j.length ≤ k.length) :
    FindZone db d = some { Name := k, RRSets := rr } := by
  cases hf : FindZone db d with
  | none => exact absurd hf (FindZone_ne_none_of_key db d k (by simp [hk]) hend)
  | some z =>
    obtain ⟨hz, hzend, hzmax⟩ := FindZone_some_longest db d z hf
    have h1 := hmax z.Name (by simp [hz]) hzend
    have h2 := hzmax k (by simp [hk]) hend
    have hzk : z.Name = k :=
      eq_of_mem_of_length_eq _ (GetSearchingZoneNames_pairwise d) _ _
        ((endsWithZone_iff_mem d z.Name).1 hzend) ((endsWithZone_iff_mem d k).1 hend)
        (le_antisymm h1 h2)
    cases z
    simp_all

theorem exampleZoneMap_keys (k : GoString) :
    (exampleZoneMap k).isSome ↔ (k = "b.c".toList ∨ k = "c".toList) := by
  unfold exampleZoneMap
  split_ifs with h1 h2 <;> simp_all

/-- C1: `FindZone` returns the zone `{Name: k, RRSets: db[k]}` of the first candidate
`k` of `GetSearchingZoneNames` that is a key of the map (every candidate before it is
not a key), and returns nil exactly when no candidate is a key. -/
theorem findZone_first_candidate (db : ZoneMap) (d : GoString) :
    (∀ z, FindZone db d = some z ↔
      ∃ pre post, GetSearchingZoneNames d = pre ++ z.Name :: post
        ∧ (∀ k ∈ pre, db k = none) ∧ db z.Name = some z.RRSets)
    ∧ (FindZone db d = none ↔ ∀ k ∈ GetSearchingZoneNames d, db k = none) :=
  ⟨fun z => FindZone.loop_eq_some_iff db _ z, FindZone.loop_eq_none_iff db _⟩

/-- C2: `FindZone` is a longest-suffix match on label boundaries: a zone it returns is
a key of the map, the name is that key or ends with `.` and the key, and no key with
that property is longer; and when some key has that property a zone is returned. -/
theorem findZone_longest_suffix (db : ZoneMap) (d : GoString) :
    (∀ z, FindZone db d = some z →
      db z.Name = some z.RRSets
      ∧ (d = z.Name ∨ stringsHasSuffix d (dot ++ z.Name) = true)
      ∧ ∀ k, (db k).isSome → (d = k ∨ stringsHasSuffix d (dot ++ k) = true) →
          k.length ≤ z.Name.length)
    ∧ (∀ k, (db k).isSome → (d = k ∨ stringsHasSuffix d (dot ++ k) = true) →
        FindZone db d ≠ none) :=
  ⟨fun z h => FindZone_some_longest db d z h, fun k hk h => FindZone_ne_none_of_key db d k hk h⟩

/-- C2 at the name `a.b.c` over the keys `b.c` and `c`: the zone `b.c` is returned, and
the key `c` is not longer. -/
theorem findZone_longest_suffix_witness :
    FindZone exampleZoneMap "a.b.c".toList = some { Name := "b.c".toList, RRSets := [] }
    ∧ "c".toList.length ≤ "b.c".toList.length
    ∧ FindZone exampleZoneMap "a.b.c".toList ≠ none :=
  ⟨by decide,
   ((findZone_longest_suffix exampleZoneMap "a.b.c".toList).1
      { Name := "b.c".toList, RRSets := [] } (by decide)).2.2 "c".toList (by decide) (by decide),
   (findZone_longest_suffix exampleZoneMap "a.b.c".toList).2 "c".toList (by decide) (by decide)⟩

/-- C3, as stated, fails: over the keys `b.c` and `c` the name `ab.c` ends with `b.c`
and `FindZone` returns the zone `c`; the name `xc` ends with `c`, not with `b.c`, and
`FindZone` returns not-found. -/
theorem findZone_plain_suffix_counterexample :
    (∀ k, (exampleZoneMap k).isSome ↔ (k = "b.c".toList ∨ k = "c".toList))
    ∧ stringsHasSuffix "ab.c".toList "b.c".toList = true
    ∧ FindZone exampleZoneMap "ab.c".toList = some { Name := "c".toList, RRSets := [] }
    ∧ stringsHasSuffix "xc".toList "b.c".toList = false
    ∧ stringsHasSuffix "xc".toList "c".toList = true
    ∧ FindZone exampleZoneMap "xc".toList = none :=
  ⟨exampleZoneMap_keys, by decide, by decide, by decide, by decide, by decide⟩

/-- C3, amended: over a map whose keys are exactly `b.c` and `c`, `FindZone n` returns
the zone `b.c` when `n` is `b.c` or ends with `.b.c`; otherwise the zone `c` when `n`
is `c` or ends with `.c`; otherwise not-found. -/
theorem findZone_two_zones (db : ZoneMap) (b c n : GoString)
    (hkeys : ∀ k, (db k).isSome ↔ (k = b ++ dot ++ c ∨ k = c)) :
    (EndsWithZone n (b ++ dot ++ c) →
      ∃ rr, db (b ++ dot ++ c) = some rr
        ∧ FindZone db n = some { Name := b ++ dot ++ c, RRSets := rr })
    ∧ (¬ EndsWithZone n (b ++ dot ++ c) → EndsWithZone n c →
      ∃ rr, db c = some rr ∧ FindZone db n = some { Name := c, RRSets := rr })
    ∧ (¬ EndsWithZone n (b ++ dot ++ c) → ¬ EndsWithZone n c → FindZone db n = none) := by
  refine ⟨fun h1 => ?_, fun h1 h2 => ?_, fun h1 h2 => ?_⟩
  · obtain ⟨rr, hrr⟩ := Option.isSome_iff_exists.1 ((hkeys (b ++ dot ++ c)).2 (Or.inl rfl))
    refine ⟨rr, hrr, FindZone_eq_of_longest db n _ rr hrr h1 ?_⟩
    intro j hj _
    rcases (hkeys j).1 hj with rfl | rfl
    · exact le_refl _
    · simp only [List.length_append]; omega
  · obtain ⟨rr, hrr⟩ := Option.isSome_iff_exists.1 ((hkeys c).2 (Or.inr rfl))
    refine ⟨rr, hrr, FindZone_eq_of_longest db n _ rr hrr h2 ?_⟩
    intro j hj hend
    rcases (hkeys j).1 hj with rfl | rfl
    · exact absurd hend h1
    · exact le_refl _
  · refine (FindZone.loop_eq_none_iff db _).2 fun k hk => ?_
    cases hdb : db k with
    | none => rfl
    | some rr =>
      have hend := (endsWithZone_iff_mem n k).2 hk
      rcases (hkeys k).1 (by simp [hdb]) with rfl | rfl
      · exact absurd hend h1
      · exact absurd hend h2

/-- C3, amended, at the keys `b.c` and `c`: `a.b.c` gives the zone `b.c`, `ab.c` gives
the zone `c`, and `xc` is not found. -/
theorem findZone_two_zones_witness :
    (∃ rr, exampleZoneMap "b.c".toList = some rr
      ∧ FindZone exampleZoneMap "a.b.c".toList = some { Name := "b.c".toList, RRSets := rr })
    ∧ (∃ rr, exampleZoneMap "c".toList = some rr
      ∧ FindZone exampleZoneMap "ab.c".toList = some { Name := "c".toList, RRSets := rr })
    ∧ FindZone exampleZoneMap "xc".toList = none :=
  ⟨(findZone_two_zones exampleZoneMap "b".toList "c".toList "a.b.c".toList
      exampleZoneMap_keys).1 (by decide),
   (findZone_two_zones exampleZoneMap "b".toList "c".toList "ab.c".toList
      exampleZoneMap_keys).2.1 (by decide) (by decide),
   (findZone_two_zones exampleZoneMap "b".toList "c".toList "xc".toList
      exampleZoneMap_keys).2.2 (by decide) (by decide)⟩

/-! ## ANAME resolver -/

/-- A state-passing loop whose body appends the contribution `c x s`: the loop computes
the concatenation of the contributions. -/
theorem foldl_eq_concatState {α β σ : Type} (step : List β × σ → α → List β × σ)
    (c : α → σ → List β × σ)
    (hstep : ∀ acc s x, step (acc, s) x = (acc ++ (c x s).1, (c x s).2))
    (l : List α) (acc : List β) (s : σ) :
    l.foldl step (acc, s) = (acc ++ (concatState c l s).1, (concatState c l s).2) := by
  induction l generalizing acc s with
  | nil => simp [concatState]
  | cons x xs ih =>
    simp only [List.foldl_cons, concatState]
    rw [hstep acc s x, ih]
    simp [List.append_assoc]

theorem concatState_map {α β γ σ : Type} (c : α → σ → List β × σ) (f : β → γ)
    (l : List α) (s : σ) :
    concatState (fun x s => (((c x s).1).map f, (c x s).2)) l s
      = (((concatState c l s).1).map f, (concatState c l s).2) := by
  induction l generalizing s with
  | nil => simp [concatState]
  | cons x xs ih => simp [concatState, ih]

theorem concatState_congr {α β σ : Type} (c c1 : α → σ → List β × σ)
    (h : ∀ x s, c x s = c1 x s) (l : List α) (s : σ) :
    concatState c l s = concatState c1 l s := by
  have : c = c1 := funext fun x => funext fun s => h x s
  rw [this]

/-- What `ResolveHost` keeps of an answer section. -/
theorem ResolveHost_step_foldl (answer : List UpstreamRR) (init : List DNSResolveResult) :
    answer.foldl ResolveHost.step init
      = init ++ (answer.filter (fun a => a.Rrtype = TypeA ∨ a.Rrtype = TypeAAAA)).map
          (fun a => ({ Addr := a.Addr, Type_ := a.Rrtype } : DNSResolveResult)) := by
  induction answer generalizing init with
  | nil => simp
  | cons a as ih =>
    simp only [List.foldl_cons, ResolveHost.step]
    by_cases hA : a.Rrtype = TypeA
    · simp [hA, ih, List.filter_cons]
    · have hne : TypeAAAA ≠ TypeA := by decide
      by_cases hB : a.Rrtype = TypeAAAA
      · simp [hB, hne, ih, List.filter_cons]
      · simp [hA, hB, ih, List.filter_cons]

/-- One attempt of `ResolveANAME` appends the records of the attempt's answers. -/
theorem ResolveANAME_family_eq {σ : Type} (lib : Lib) (exchange : Upstream σ) (zone : Zone)
    (rrSet : RRSet) (fqdn : GoString) (acc : List Record) (s : σ) (t : Nat) :
    ResolveANAME.family lib exchange zone rrSet fqdn (acc, s) t
      = (acc ++ ((attemptAnswers exchange fqdn t s).1).map (answerRecord lib zone rrSet),
          (attemptAnswers exchange fqdn t s).2) := by
  unfold ResolveANAME.family ResolveHost attemptAnswers
  cases h : exchange s fqdn t with
  | mk r s1 =>
    cases r with
    | none => simp
    | some answer =>
      simp only [ResolveHost_step_foldl, List.nil_append]
      rw [foldl_append_singleton]
      simp [List.map_map, Function.comp_def, ResolveANAME.record, answerRecord]

/-- `ResolveANAME` concatenates the records of its attempts: per value in order, the
attempt for A and then the attempt for AAAA. -/
theorem ResolveANAME_eq_attempts {σ : Type} (lib : Lib) (exchange : Upstream σ) (zone : Zone)
    (rrSet : RRSet) (s : σ) :
    ResolveANAME lib exchange zone rrSet s
      = concatState
          (fun value => concatState
            (attemptRecords lib exchange zone rrSet (ResolveANAME.fqdn zone value))
            [TypeA, TypeAAAA])
          rrSet.Values s := by
  unfold ResolveANAME
  have hval : ∀ acc s value,
      ResolveANAME.value lib exchange zone rrSet (acc, s) value
        = (acc ++ (concatState
              (attemptRecords lib exchange zone rrSet (ResolveANAME.fqdn zone value))
              [TypeA, TypeAAAA] s).1,
            (concatState
              (attemptRecords lib exchange zone rrSet (ResolveANAME.fqdn zone value))
              [TypeA, TypeAAAA] s).2) := by
    intro acc s value
    exact foldl_eq_concatState
      (ResolveANAME.family lib exchange zone rrSet (ResolveANAME.fqdn zone value))
      (attemptRecords lib exchange zone rrSet (ResolveANAME.fqdn zone value))
      (fun acc s t => ResolveANAME_family_eq lib exchange zone rrSet _ acc s t)
      [TypeA, TypeAAAA] acc s
  have h2 := foldl_eq_concatState (ResolveANAME.value lib exchange zone rrSet)
    (fun value => concatState
      (attemptRecords lib exchange zone rrSet (ResolveANAME.fqdn zone value))
      [TypeA, TypeAAAA])
    hval rrSet.Values [] s
  simpa using h2

/-- `ResolveANAME` maps the A and AAAA answers of its attempts to records, in order. -/
theorem ResolveANAME_eq {σ : Type} (lib : Lib) (exchange : Upstream σ) (zone : Zone)
    (rrSet : RRSet) (s : σ) :
    ResolveANAME lib exchange zone rrSet s
      = (((upstreamAnswers exchange zone rrSet.Values s).1).map (answerRecord lib zone rrSet),
          (upstreamAnswers exchange zone rrSet.Values s).2) := by
  rw [ResolveANAME_eq_attempts]
  unfold upstreamAnswers
  rw [← concatState_map]
  apply concatState_congr
  intro value s1
  rw [← concatState_map]
  rfl

theorem attemptAnswers_healed {σ : Type} (exchange : Upstream σ) :
    attemptAnswers (healed exchange) = attemptAnswers exchange := by
  funext fqdn t s
  unfold attemptAnswers healed
  cases h : exchange s fqdn t with
  | mk r s1 => cases r <;> simp

theorem concatState_fst_eq_flatMap {α β σ : Type} (c : α → σ → List β × σ)
    (f : α → List β) (hc : ∀ x s, (c x s).1 = f x) (l : List α) (s : σ) :
    (concatState c l s).1 = l.flatMap f := by
  induction l generalizing s with
  | nil => simp [concatState]
  | cons x xs ih => simp [concatState, hc, ih]

theorem concatState_forall_mem {α β σ : Type} (c : α → σ → List β × σ) (P : β → Prop)
    (hc : ∀ x s, ∀ b ∈ (c x s).1, P b) (l : List α) (s : σ) :
    ∀ b ∈ (concatState c l s).1, P b := by
  induction l generalizing s with
  | nil => simp [concatState]
  | cons x xs ih =>
    intro b hb
    simp only [concatState, List.mem_append] at hb
    rcases hb with hb | hb
    · exact hc x s b hb
    · exact ih _ b hb

/-- Every answer `ResolveANAME` turns into a record is an A or an AAAA answer. -/
theorem upstreamAnswers_family {σ : Type} (exchange : Upstream σ) (zone : Zone)
    (values : List GoString) (s : σ) :
    ∀ a ∈ (upstreamAnswers exchange zone values s).1,
      a.Rrtype = TypeA ∨ a.Rrtype = TypeAAAA := by
  unfold upstreamAnswers
  apply concatState_forall_mem
  intro value s1
  apply concatState_forall_mem
  intro t s2 a ha
  unfold attemptAnswers at ha
  cases h : exchange s2 (ResolveANAME.fqdn zone value) t with
  | mk r s3 =>
    rw [h] at ha
    cases r with
    | none => simp at ha
    | some answer =>
      simp only [List.mem_filter, decide_eq_true_eq] at ha
      exact ha.2

/-- With every exchange failing no attempt has an answer. -/
theorem upstreamAnswers_unreachable {σ : Type} (exchange : Upstream σ)
    (hfail : ∀ s fqdn t, (exchange s fqdn t).1 = none) (zone : Zone)
    (values : List GoString) (s : σ) :
    (upstreamAnswers exchange zone values s).1 = [] := by
  unfold upstreamAnswers
  rw [concatState_fst_eq_flatMap _ (fun _ => [])]
  · simp
  · intro value s1
    rw [concatState_fst_eq_flatMap _ (fun _ => [])]
    · simp
    · intro t s2
      unfold attemptAnswers
      have := hfail s2 (ResolveANAME.fqdn zone value) t
      cases h : exchange s2 (ResolveANAME.fqdn zone value) t with
      | mk r s3 =>
        rw [h] at this
        simp only at this
        subst this
        rfl

/-! ## Record matcher -/

theorem FindZoneRecords_host_append (zone : Zone) (pre : GoString) :
    FindZoneRecords.host zone (pre ++ zone.Name) = stringsTrimRight pre '.' := by
  simp [FindZoneRecords.host]

/-- One iteration of the RRSet loop appends the contribution of the RRSet. -/
theorem FindZoneRecords_step_eq {σ : Type} (lib : Lib) (exchange : Upstream σ) (zone : Zone)
    (host : GoString) (recordType : Nat) (acc : List Record) (s : σ) (rrSet : RRSet) :
    FindZoneRecords.step lib exchange zone host recordType (acc, s) rrSet
      = (acc ++ (contribution lib exchange zone host recordType rrSet s).1,
          (contribution lib exchange zone host recordType rrSet s).2) := by
  unfold FindZoneRecords.step contribution directRecords directMatch anameMatch
  simp only [foldl_append_singleton, FindZoneRecords.record]
  split_ifs <;> simp_all

/-- `FindZoneRecords` computes the concatenation of the contributions of the RRSets. -/
theorem FindZoneRecords_eq {σ : Type} (lib : Lib) (exchange : Upstream σ) (zone : Zone)
    (domain : GoString) (recordType : Nat) (s : σ)
    (hlen : zone.Name.length ≤ domain.length) :
    FindZoneRecords lib exchange zone domain recordType s
      = some (concatState
          (contribution lib exchange zone (FindZoneRecords.host zone domain) recordType)
          zone.RRSets s) := by
  unfold FindZoneRecords
  rw [if_pos hlen]
  have := foldl_eq_concatState
    (FindZoneRecords.step lib exchange zone (FindZoneRecords.host zone domain) recordType)
    (contribution lib exchange zone (FindZoneRecords.host zone domain) recordType)
    (FindZoneRecords_step_eq lib exchange zone _ recordType) zone.RRSets [] s
  simpa using this

/-- RRSets of another host contribute nothing. -/
theorem concatState_contribution_filter {σ : Type} (lib : Lib) (exchange : Upstream σ)
    (zone : Zone) (host : GoString) (recordType : Nat) (l : List RRSet) (s : σ) :
    concatState (contribution lib exchange zone host recordType) l s
      = concatState (contribution lib exchange zone host recordType)
          (l.filter (fun x => decide (x.Host = host))) s := by
  induction l generalizing s with
  | nil => simp
  | cons x xs ih =>
    by_cases hh : x.Host = host
    · simp only [List.filter_cons, hh, decide_True, if_true, concatState]
      rw [ih]
    · simp only [List.filter_cons, hh, decide_False, concatState]
      rw [ih]
      simp [contribution, hh]

/-- The answer when exactly one RRSet has the queried host: its contribution. -/
theorem FindZoneRecords_single {σ : Type} (lib : Lib) (exchange : Upstream σ) (zone : Zone)
    (domain : GoString) (recordType : Nat) (s : σ) (r : RRSet)
    (hlen : zone.Name.length ≤ domain.length)
    (honly : zone.RRSets.filter
      (fun x => decide (x.Host = FindZoneRecords.host zone domain)) = [r]) :
    FindZoneRecords lib exchange zone domain recordType s
      = some (contribution lib exchange zone (FindZoneRecords.host zone domain)
          recordType r s) := by
  rw [FindZoneRecords_eq lib exchange zone domain recordType s hlen,
    concatState_contribution_filter, honly]
  simp [concatState]

/-- C4: for a domain `pre ++ zone.Name`, `FindZoneRecords` returns the concatenation,
over the zone's RRSets in stored order, of the per-RRSet contributions for the host
label `pre` without its trailing dots: nothing for another host, otherwise the
direct-match records (one per value) followed, under the ANAME rule, by the output
of `ResolveANAME`; each upstream exchange runs in the state the previous one left. -/
theorem findZoneRecords_concat_contributions {σ : Type} (lib : Lib) (exchange : Upstream σ)
    (zone : Zone) (pre : GoString) (recordType : Nat) (s : σ) :
    FindZoneRecords lib exchange zone (pre ++ zone.Name) recordType s
      = some (concatState
          (contribution lib exchange zone (stringsTrimRight pre '.') recordType)
          zone.RRSets s) := by
  rw [FindZoneRecords_eq lib exchange zone _ recordType s (by simp),
    FindZoneRecords_host_append]

/-- C5: when the only RRSet of the zone at the queried host label is a CNAME RRSet,
`FindZoneRecords` returns one CNAME record per value of that RRSet, in value order and
with the RRSet's TTL, for every query type, and makes no upstream exchange. -/
theorem findZoneRecords_cname_only {σ : Type} (lib : Lib) (exchange : Upstream σ)
    (zone : Zone) (pre : GoString) (recordType : Nat) (s : σ) (r : RRSet)
    (honly : zone.RRSets.filter
      (fun x => decide (x.Host = stringsTrimRight pre '.')) = [r])
    (hcname : r.Type_ = "CNAME".toList) :
    FindZoneRecords lib exchange zone (pre ++ zone.Name) recordType s
      = some (r.Values.map (fun v =>
          ({ ZoneName := zone.Name, Host := stringsTrimRight pre '.',
             Type_ := "CNAME".toList, Ttl := r.Ttl, Value := v } : Record)), s) := by
  rw [← FindZoneRecords_host_append zone pre] at honly
  rw [FindZoneRecords_single lib exchange zone _ recordType s r (by simp) honly,
    FindZoneRecords_host_append]
  have hmem : r ∈ zone.RRSets.filter
      (fun x => decide (x.Host = FindZoneRecords.host zone (pre ++ zone.Name))) := by
    rw [honly]; simp
  have hhost : r.Host = stringsTrimRight pre '.' := by
    have := (List.mem_filter.1 hmem).2
    rw [FindZoneRecords_host_append] at this
    exact of_decide_eq_true this
  have hna : ¬ anameMatch recordType r := by
    unfold anameMatch
    rw [hcname]
    exact fun h => absurd h.1 (by decide)
  have hd : directMatch lib recordType r := Or.inr (Or.inr hcname)
  simp only [contribution, directRecords, hhost, ne_eq, not_true_eq_false, if_false, hna,
    hd, if_true, hcname]

/-- C5 at the zone `example.org`: an MX query (type 15) for `www.example.org`, whose
only RRSet is a CNAME with two values, gets the two CNAME records. -/
theorem findZoneRecords_cname_only_witness :
    FindZoneRecords exampleLib unreachableUpstream exampleOrgZone
        "www.example.org".toList 15 ()
      = some ([{ ZoneName := "example.org".toList, Host := "www".toList,
                 Type_ := "CNAME".toList, Ttl := 120, Value := "example.org.".toList },
               { ZoneName := "example.org".toList, Host := "www".toList,
                 Type_ := "CNAME".toList, Ttl := 120, Value := "alt".toList }], ()) :=
  findZoneRecords_cname_only exampleLib unreachableUpstream exampleOrgZone "www.".toList 15 ()
    { Host := "www".toList, Type_ := "CNAME".toList, Ttl := 120,
      Values := ["example.org.".toList, "alt".toList] } (by decide) (by decide)

/-- C6: when the only RRSet of the zone at the queried host label has a type `T` that
is the mnemonic of the query type and is not ANAME, `FindZoneRecords` returns exactly
one record `{zone.Name, host, T, ttl, v}` per value `v` of the RRSet, in value order
(so `N` values give `N` records), and makes no upstream exchange. -/
theorem findZoneRecords_flatten {σ : Type} (lib : Lib) (exchange : Upstream σ)
    (zone : Zone) (pre : GoString) (recordType : Nat) (s : σ) (r : RRSet)
    (honly : zone.RRSets.filter
      (fun x => decide (x.Host = stringsTrimRight pre '.')) = [r])
    (htype : r.Type_ = lib.typeString recordType)
    (hna : r.Type_ ≠ "ANAME".toList) :
    FindZoneRecords lib exchange zone (pre ++ zone.Name) recordType s
        = some (r.Values.map (fun v =>
            ({ ZoneName := zone.Name, Host := stringsTrimRight pre '.',
               Type_ := r.Type_, Ttl := r.Ttl, Value := v } : Record)), s)
      ∧ (r.Values.map (fun v =>
            ({ ZoneName := zone.Name, Host := stringsTrimRight pre '.',
               Type_ := r.Type_, Ttl := r.Ttl, Value := v } : Record))).length
          = r.Values.length := by
  refine ⟨?_, by simp⟩
  rw [← FindZoneRecords_host_append zone pre] at honly
  rw [FindZoneRecords_single lib exchange zone _ recordType s r (by simp) honly,
    FindZoneRecords_host_append]
  have hmem : r ∈ zone.RRSets.filter
      (fun x => decide (x.Host = FindZoneRecords.host zone (pre ++ zone.Name))) := by
    rw [honly]; simp
  have hhost : r.Host = stringsTrimRight pre '.' := by
    have := (List.mem_filter.1 hmem).2
    rw [FindZoneRecords_host_append] at this
    exact of_decide_eq_true this
  have hnm : ¬ anameMatch recordType r := fun h => hna h.1
  have hd : directMatch lib recordType r := Or.inl htype
  simp only [contribution, directRecords, hhost, ne_eq, not_true_eq_false, if_false, hnm,
    hd, if_true]

/-- C6 at the zone `example.com` with the RRSet `{host:"", type:"A", ttl:300,
values:["1.2.3.4"]}`: the query `(example.com, A)` gets exactly the one record
`{host:"", type:"A", ttl:300, value:"1.2.3.4"}`. -/
theorem findZoneRecords_flatten_witness :
    FindZoneRecords exampleLib unreachableUpstream exampleComZone
        "example.com".toList TypeA ()
      = some ([{ ZoneName := "example.com".toList, Host := [], Type_ := "A".toList,
                 Ttl := 300, Value := "1.2.3.4".toList }], ()) :=
  (findZoneRecords_flatten exampleLib unreachableUpstream exampleComZone [] TypeA ()
    { Host := [], Type_ := "A".toList, Ttl := 300, Values := ["1.2.3.4".toList] }
    (by decide) (by decide) (by decide)).1

/-! ## Query entry point -/

/-- The record loop of `GetZoneRRSet` keeps the records `CreateRR` builds, in order. -/
theorem GetZoneRRSet_step_foldl {RR : Type} (codec : Codec RR) (env : Env)
    (records : List Record) (init : List RR) :
    records.foldl (GetZoneRRSet.step codec env) init
      = init ++ records.filterMap (CreateRR codec env) := by
  induction records generalizing init with
  | nil => simp
  | cons r rs ih =>
    simp only [List.foldl_cons, GetZoneRRSet.step]
    cases h : CreateRR codec env r with
    | none => simp [ih, List.filterMap_cons, h]
    | some rr => simp [ih, List.filterMap_cons, h]

/-- The name of a zone `FindZone` returns is not longer than the queried name. -/
theorem FindZone_name_length_le (db : ZoneMap) (d : GoString) (z : Zone)
    (h : FindZone db d = some z) : z.Name.length ≤ d.length := by
  rcases (FindZone_some_longest db d z h).2.1 with h1 | h1
  · rw [h1]
  · have := (List.isSuffixOf_iff_suffix.1 h1).length_le
    simp only [List.length_append] at this
    omega

/-- A found zone gives status success, with the records `CreateRR` builds. -/
theorem GetZoneRRSet_found {σ RR : Type} (lib : Lib) (codec : Codec RR) (env : Env)
    (exchange : Upstream σ) (domain : GoString) (recordType : Nat) (s : σ) (db : ZoneMap)
    (zone : Zone) (hdb : LoadDatabase env = some db) (hz : FindZone db domain = some zone) :
    ∃ records s1, FindZoneRecords lib exchange zone domain recordType s = some (records, s1)
      ∧ GetZoneRRSet lib codec env exchange domain recordType s
          = some ((records.filterMap (CreateRR codec env), RcodeSuccess), s1) := by
  have hlen := FindZone_name_length_le db domain zone hz
  have hrec := FindZoneRecords_eq lib exchange zone domain recordType s hlen
  refine ⟨_, _, hrec, ?_⟩
  unfold GetZoneRRSet
  simp only [hdb, hz, hrec, GetZoneRRSet_step_foldl, List.nil_append]

/-- C7, as stated, fails.  A database whose parse reports an error and leaves a zone
map that is not nil is served: the query `(example.com, A)` gets status success and one
record, not server-failure.  A database read and parsed without error that yields the
nil map gets server-failure, not name-error. -/
theorem getZoneRRSet_load_failure_counterexample :
    (partialParseEnv.Unmarshal partialParseEnv.ReadFile.1).2 = true
    ∧ GetZoneRRSet exampleLib sampleCodec partialParseEnv unreachableUpstream
        "example.com".toList TypeA ()
      = some (([("$ORIGIN example.com\n@ 60 IN A 1.2.3.4".toList, 0)], RcodeSuccess), ())
    ∧ RcodeSuccess ≠ RcodeServerFailure
    ∧ emptyFileEnv.ReadFile.2 = false
    ∧ (emptyFileEnv.Unmarshal emptyFileEnv.ReadFile.1).2 = false
    ∧ GetZoneRRSet exampleLib sampleCodec emptyFileEnv unreachableUpstream
        "example.com".toList TypeA ()
      = some (([], RcodeServerFailure), ())
    ∧ RcodeServerFailure ≠ RcodeNameError := by
  refine ⟨by decide, by decide, by decide, by decide, by decide, by decide, by decide⟩

/-- C7, amended: `GetZoneRRSet` returns server-failure with an empty answer when
`LoadDatabase` yields the nil zone map, with or without a logged error; when the file
is read and parsed without error and the zone map is not nil, it returns name-error
with an empty answer if `FindZone` finds no zone, and success otherwise, with the
records `CreateRR` builds from the matched records, be that list empty or not; the
three status codes are distinct. -/
theorem getZoneRRSet_status_by_zone_map {σ RR : Type} (lib : Lib) (codec : Codec RR)
    (env : Env) (exchange : Upstream σ) (domain : GoString) (recordType : Nat) (s : σ) :
    (LoadDatabase env = none →
      GetZoneRRSet lib codec env exchange domain recordType s
        = some (([], RcodeServerFailure), s))
    ∧ (env.ReadFile.2 = false → (env.Unmarshal env.ReadFile.1).2 = false →
      ∀ db, LoadDatabase env = some db →
        (FindZone db domain = none →
          GetZoneRRSet lib codec env exchange domain recordType s
            = some (([], RcodeNameError), s))
        ∧ (∀ zone, FindZone db domain = some zone →
          ∃ records s1,
            FindZoneRecords lib exchange zone domain recordType s = some (records, s1)
            ∧ GetZoneRRSet lib codec env exchange domain recordType s
                = some ((records.filterMap (CreateRR codec env), RcodeSuccess), s1)))
    ∧ RcodeSuccess ≠ RcodeNameError ∧ RcodeSuccess ≠ RcodeServerFailure
    ∧ RcodeNameError ≠ RcodeServerFailure := by
  refine ⟨fun h => ?_, fun _ _ db h1 => ⟨fun h2 => ?_, fun zone h2 => ?_⟩, by decide,
    by decide, by decide⟩
  · simp [GetZoneRRSet, h]
  · simp [GetZoneRRSet, h1, h2]
  · exact GetZoneRRSet_found lib codec env exchange domain recordType s db zone h1 h2

/-- C7, amended, on concrete queries: a missing file and an empty file both yield the
nil map and give server-failure; with a database loaded without error an unknown name
gives name-error, and a found zone whose records are all dropped gives success with an
empty answer. -/
theorem getZoneRRSet_status_by_zone_map_witness :
    GetZoneRRSet exampleLib rejectingCodec failedEnv unreachableUpstream
        "example.com".toList TypeA () = some (([], RcodeServerFailure), ())
    ∧ GetZoneRRSet exampleLib rejectingCodec emptyFileEnv unreachableUpstream
        "example.com".toList TypeA () = some (([], RcodeServerFailure), ())
    ∧ GetZoneRRSet exampleLib rejectingCodec exampleEnv unreachableUpstream
        "example.net".toList TypeA () = some (([], RcodeNameError), ())
    ∧ GetZoneRRSet exampleLib rejectingCodec exampleEnv unreachableUpstream
        "example.com".toList TypeA () = some (([], RcodeSuccess), ()) :=
  ⟨(getZoneRRSet_status_by_zone_map exampleLib rejectingCodec failedEnv unreachableUpstream
      "example.com".toList TypeA ()).1 rfl,
   (getZoneRRSet_status_by_zone_map exampleLib rejectingCodec emptyFileEnv
      unreachableUpstream "example.com".toList TypeA ()).1 rfl,
   ((getZoneRRSet_status_by_zone_map exampleLib rejectingCodec exampleEnv unreachableUpstream
      "example.net".toList TypeA ()).2.1 rfl rfl _ rfl).1 (by decide),
   by
    obtain ⟨records, s1, -, h⟩ :=
      ((getZoneRRSet_status_by_zone_map exampleLib rejectingCodec exampleEnv
        unreachableUpstream "example.com".toList TypeA ()).2.1 rfl rfl _ rfl).2
        exampleComZone (by decide)
    rw [h]
    cases s1
    have : records.filterMap (CreateRR rejectingCodec exampleEnv) = [] := by
      induction records with
      | nil => rfl
      | cons r rs ih => simp [List.filterMap_cons, CreateRR, rejectingCodec, ih]
    rw [this]⟩

/-! ## Upstream failures -/

/-- With every exchange failing, `FindZoneRecords` returns the records of the
direct-match rule. -/
theorem FindZoneRecords_unreachable {σ : Type} (lib : Lib) (exchange : Upstream σ)
    (hfail : ∀ s fqdn t, (exchange s fqdn t).1 = none) (zone : Zone) (domain : GoString)
    (recordType : Nat) (s : σ) (hlen : zone.Name.length ≤ domain.length) :
    ∃ s1, FindZoneRecords lib exchange zone domain recordType s
      = some (zone.RRSets.flatMap (fun r =>
          if r.Host = FindZoneRecords.host zone domain then
            directRecords lib zone (FindZoneRecords.host zone domain) recordType r
          else []), s1) := by
  refine ⟨(concatState
    (contribution lib exchange zone (FindZoneRecords.host zone domain) recordType)
    zone.RRSets s).2, ?_⟩
  rw [FindZoneRecords_eq lib exchange zone domain recordType s hlen]
  congr 1
  apply Prod.ext
  · apply concatState_fst_eq_flatMap
    intro r s1
    unfold contribution
    rw [ResolveANAME_eq, upstreamAnswers_unreachable exchange hfail]
    split_ifs <;> simp_all
  · rfl

/-- C8: when every upstream exchange fails, `ResolveANAME` returns the empty list,
`FindZoneRecords` returns exactly the records of its direct-match rule (type equal,
ANY or CNAME) for the RRSets of the queried host, and `GetZoneRRSet` reports success
for a found zone, with the records `CreateRR` builds from those. -/
theorem unreachable_upstream_no_aname_records {σ RR : Type} (lib : Lib)
    (exchange : Upstream σ) (hfail : ∀ s fqdn t, (exchange s fqdn t).1 = none) :
    (∀ zone rrSet s, (ResolveANAME lib exchange zone rrSet s).1 = [])
    ∧ (∀ (zone : Zone) pre recordType s,
        ∃ s1, FindZoneRecords lib exchange zone (pre ++ zone.Name) recordType s
          = some (zone.RRSets.flatMap (fun r =>
              if r.Host = stringsTrimRight pre '.' then
                directRecords lib zone (stringsTrimRight pre '.') recordType r
              else []), s1))
    ∧ (∀ (codec : Codec RR) env db zone domain recordType s,
        LoadDatabase env = some db → FindZone db domain = some zone →
        ∃ s1, GetZoneRRSet lib codec env exchange domain recordType s
          = some (((zone.RRSets.flatMap (fun r =>
              if r.Host = FindZoneRecords.host zone domain then
                directRecords lib zone (FindZoneRecords.host zone domain) recordType r
              else [])).filterMap (CreateRR codec env), RcodeSuccess), s1)) := by
  refine ⟨fun zone rrSet s => ?_, fun zone pre recordType s => ?_,
    fun codec env db zone domain recordType s hdb hz => ?_⟩
  · rw [ResolveANAME_eq, upstreamAnswers_unreachable exchange hfail]
    rfl
  · have := FindZoneRecords_unreachable lib exchange hfail zone (pre ++ zone.Name)
      recordType s (by simp)
    rw [FindZoneRecords_host_append] at this
    exact this
  · obtain ⟨s1, h1⟩ := FindZoneRecords_unreachable lib exchange hfail zone domain
      recordType s (FindZone_name_length_le db domain zone hz)
    obtain ⟨records, s2, h2, h3⟩ :=
      GetZoneRRSet_found lib codec env exchange domain recordType s db zone hdb hz
    rw [h1] at h2
    simp only [Option.some.injEq, Prod.mk.injEq] at h2
    refine ⟨s2, ?_⟩
    rw [h3, ← h2.1]

/-- C8 at the zone `example.org`, whose apex has an A RRSet and an ANAME RRSet, with
an unreachable upstream: the ANAME RRSet resolves to nothing and an A query for the
apex gets the A record alone. -/
theorem unreachable_upstream_no_aname_records_witness :
    (ResolveANAME exampleLib unreachableUpstream exampleOrgZone
        { Host := [], Type_ := "ANAME".toList, Ttl := 30, Values := ["target".toList] } ()).1
      = []
    ∧ FindZoneRecords exampleLib unreachableUpstream exampleOrgZone
        "example.org".toList TypeA ()
      = some ([{ ZoneName := "example.org".toList, Host := [], Type_ := "A".toList,
                 Ttl := 0, Value := "192.0.2.1".toList }], ()) :=
  ⟨(@unreachable_upstream_no_aname_records Unit Unit exampleLib unreachableUpstream
      (fun _ _ _ => rfl)).1 exampleOrgZone _ (),
   by
    obtain ⟨s1, h⟩ := (@unreachable_upstream_no_aname_records Unit Unit exampleLib
      unreachableUpstream (fun _ _ _ => rfl)).2.1 exampleOrgZone [] TypeA ()
    cases s1
    exact h.trans (by decide)⟩

/-- C9: `ResolveANAME` returns the concatenation, over the values in order and for
each value over the address families A then AAAA, of the records built from that
attempt's answers, a failed attempt contributing the empty list; and replacing every
failing attempt by a successful attempt with zero answers changes neither the records
nor the final state. -/
theorem resolveANAME_isolates_failures {σ : Type} (lib : Lib) (exchange : Upstream σ)
    (zone : Zone) (rrSet : RRSet) (s : σ) :
    ResolveANAME lib exchange zone rrSet s
        = concatState
            (fun value => concatState
              (attemptRecords lib exchange zone rrSet (ResolveANAME.fqdn zone value))
              [TypeA, TypeAAAA])
            rrSet.Values s
    ∧ (∀ fqdn t s1, (exchange s1 fqdn t).1 = none →
        attemptRecords lib exchange zone rrSet fqdn t s1 = ([], (exchange s1 fqdn t).2))
    ∧ ResolveANAME lib (healed exchange) zone rrSet s
        = ResolveANAME lib exchange zone rrSet s := by
  refine ⟨ResolveANAME_eq_attempts lib exchange zone rrSet s, ?_, ?_⟩
  · intro fqdn t s1 h
    unfold attemptRecords attemptAnswers
    cases hx : exchange s1 fqdn t with
    | mk r s2 =>
      rw [hx] at h
      simp only at h
      subst h
      rfl
  · rw [ResolveANAME_eq, ResolveANAME_eq]
    unfold upstreamAnswers
    rw [attemptAnswers_healed]

/-- C9 on two values with an upstream whose AAAA exchanges all fail: both values still
get the record of their A answer, and four exchanges are made. -/
theorem resolveANAME_isolates_failures_witness :
    ResolveANAME exampleLib exampleUpstream exampleOrgZone
        { Host := [], Type_ := "ANAME".toList, Ttl := 30,
          Values := ["t1".toList, "t2.".toList] } 0
      = ([{ ZoneName := "example.org".toList, Host := [], Type_ := "A".toList, Ttl := 30,
            Value := "192.0.2.0".toList },
          { ZoneName := "example.org".toList, Host := [], Type_ := "A".toList, Ttl := 30,
            Value := "192.0.2.2".toList }], 4) :=
  (resolveANAME_isolates_failures exampleLib exampleUpstream exampleOrgZone
    { Host := [], Type_ := "ANAME".toList, Ttl := 30,
      Values := ["t1".toList, "t2.".toList] } 0).1.trans (by decide)

/-- C10: every record `ResolveANAME` returns carries the zone's name, the RRSet's host
and TTL, the type `A` or `AAAA` of the upstream answer it came from and that answer's
address in textual form; and the records are, in order, exactly one per A or AAAA
answer of the successful attempts.  The mnemonics of the type codes A and AAAA are
taken from the DNS library. -/
theorem resolveANAME_records {σ : Type} (lib : Lib) (exchange : Upstream σ) (zone : Zone)
    (rrSet : RRSet) (s : σ)
    (hA : lib.typeString TypeA = "A".toList) (hAAAA : lib.typeString TypeAAAA = "AAAA".toList) :
    (ResolveANAME lib exchange zone rrSet s).1
        = ((upstreamAnswers exchange zone rrSet.Values s).1).map (answerRecord lib zone rrSet)
    ∧ (ResolveANAME lib exchange zone rrSet s).1.length
        = (upstreamAnswers exchange zone rrSet.Values s).1.length
    ∧ ∀ r ∈ (ResolveANAME lib exchange zone rrSet s).1,
        r.ZoneName = zone.Name ∧ r.Host = rrSet.Host ∧ r.Ttl = rrSet.Ttl
        ∧ (r.Type_ = "A".toList ∨ r.Type_ = "AAAA".toList)
        ∧ ∃ a ∈ (upstreamAnswers exchange zone rrSet.Values s).1,
            ((a.Rrtype = TypeA ∧ r.Type_ = "A".toList)
              ∨ (a.Rrtype = TypeAAAA ∧ r.Type_ = "AAAA".toList))
            ∧ r.Value = lib.ipString a.Addr := by
  have heq := ResolveANAME_eq lib exchange zone rrSet s
  refine ⟨by rw [heq], by rw [heq]; simp, ?_⟩
  intro r hr
  rw [heq] at hr
  obtain ⟨a, ha, rfl⟩ := List.mem_map.1 hr
  have hfam := upstreamAnswers_family exchange zone rrSet.Values s a ha
  have htype : (a.Rrtype = TypeA ∧ (answerRecord lib zone rrSet a).Type_ = "A".toList)
      ∨ (a.Rrtype = TypeAAAA ∧ (answerRecord lib zone rrSet a).Type_ = "AAAA".toList) := by
    rcases hfam with h | h
    · left; exact ⟨h, by simp only [answerRecord, h, hA]⟩
    · right; exact ⟨h, by simp only [answerRecord, h, hAAAA]⟩
  refine ⟨rfl, rfl, rfl, ?_, a, ha, htype, rfl⟩
  rcases htype with h | h
  · exact Or.inl h.2
  · exact Or.inr h.2

/-- C10 on an upstream that answers an A question with an A record and a CNAME record:
the ANAME RRSet of `example.org` resolves to the one record of the A answer. -/
theorem resolveANAME_records_witness :
    (ResolveANAME exampleLib exampleUpstream exampleOrgZone
        { Host := [], Type_ := "ANAME".toList, Ttl := 30, Values := ["target".toList] } 7).1
      = [{ ZoneName := "example.org".toList, Host := [], Type_ := "A".toList, Ttl := 30,
           Value := "192.0.2.7".toList }] :=
  (resolveANAME_records exampleLib exampleUpstream exampleOrgZone
    { Host := [], Type_ := "ANAME".toList, Ttl := 30, Values := ["target".toList] } 7
    (by decide) (by decide)).1.trans (by decide)

/-! ## Questions sent upstream -/

/-- A loop whose contributions log `q x` on top of what `c x` does logs the
concatenation of the `q x`. -/
theorem concatState_traced {α β σ γ : Type} (c : α → σ → List β × σ)
    (c1 : α → σ × List γ → List β × (σ × List γ)) (q : α → List γ)
    (h : ∀ x s log, c1 x (s, log) = ((c x s).1, ((c x s).2, log ++ q x)))
    (l : List α) (s : σ) (log : List γ) :
    concatState c1 l (s, log)
      = ((concatState c l s).1, ((concatState c l s).2, log ++ l.flatMap q)) := by
  induction l generalizing s log with
  | nil => simp [concatState]
  | cons x xs ih =>
    simp only [concatState, h, ih, List.flatMap_cons, List.append_assoc]

/-- One attempt over the logging upstream: the attempt, and its question logged. -/
theorem attemptRecords_traced {σ : Type} (lib : Lib) (exchange : Upstream σ) (zone : Zone)
    (rrSet : RRSet) (fqdn : GoString) (t : Nat) (s : σ) (log : List (GoString × Nat)) :
    attemptRecords lib (traced exchange) zone rrSet fqdn t (s, log)
      = ((attemptRecords lib exchange zone rrSet fqdn t s).1,
          ((attemptRecords lib exchange zone rrSet fqdn t s).2, log ++ [(fqdn, t)])) := by
  unfold attemptRecords attemptAnswers traced
  cases h : exchange s fqdn t with
  | mk r s1 => cases r <;> simp [h]

/-- `ResolveANAME` over the logging upstream: the same records and state, and per
value the questions for A and AAAA logged. -/
theorem ResolveANAME_traced {σ : Type} (lib : Lib) (exchange : Upstream σ) (zone : Zone)
    (rrSet : RRSet) (s : σ) (log : List (GoString × Nat)) :
    ResolveANAME lib (traced exchange) zone rrSet (s, log)
      = ((ResolveANAME lib exchange zone rrSet s).1,
          ((ResolveANAME lib exchange zone rrSet s).2,
            log ++ rrSet.Values.flatMap (fun v =>
              [(ResolveANAME.fqdn zone v, TypeA), (ResolveANAME.fqdn zone v, TypeAAAA)]))) := by
  rw [ResolveANAME_eq_attempts, ResolveANAME_eq_attempts]
  apply concatState_traced
  intro v s1 log1
  have := concatState_traced
    (attemptRecords lib exchange zone rrSet (ResolveANAME.fqdn zone v))
    (attemptRecords lib (traced exchange) zone rrSet (ResolveANAME.fqdn zone v))
    (fun t => [(ResolveANAME.fqdn zone v, t)])
    (fun t s2 log2 => attemptRecords_traced lib exchange zone rrSet _ t s2 log2)
    [TypeA, TypeAAAA] s1 log1
  simpa using this

theorem stringsHasSuffix_fqdn (zone : Zone) (v : GoString) :
    stringsHasSuffix (ResolveANAME.fqdn zone v) dot = true := by
  unfold ResolveANAME.fqdn
  by_cases h : stringsHasSuffix v dot = true
  · simp [h]
  · simp only [h, Bool.not_eq_true, Bool.not_false, if_true]
    unfold stringsHasSuffix
    rw [List.isSuffixOf_iff_suffix]
    exact List.suffix_append _ _

/-- C11: the name `ResolveANAME` sends upstream for a value `v` is `v` when `v` ends
with `.` and `v ++ "." ++ zone.Name ++ "."` otherwise; that name ends with `.`; and the
questions asked are, for the values in order, exactly two for that name, A and then
AAAA, whether the first attempt fails or not.  Logging the questions changes neither
the records nor the state of the upstream. -/
theorem resolveANAME_questions {σ : Type} (lib : Lib) (exchange : Upstream σ) (zone : Zone)
    (rrSet : RRSet) (s : σ) :
    (ResolveANAME lib (traced exchange) zone rrSet (s, [])).2.2
        = rrSet.Values.flatMap (fun v =>
            [(if stringsHasSuffix v dot = true then v else v ++ dot ++ zone.Name ++ dot, TypeA),
             (if stringsHasSuffix v dot = true then v else v ++ dot ++ zone.Name ++ dot,
               TypeAAAA)])
    ∧ (∀ v, stringsHasSuffix
        (if stringsHasSuffix v dot = true then v else v ++ dot ++ zone.Name ++ dot) dot = true)
    ∧ (ResolveANAME lib (traced exchange) zone rrSet (s, [])).1
        = (ResolveANAME lib exchange zone rrSet s).1
    ∧ (ResolveANAME lib (traced exchange) zone rrSet (s, [])).2.1
        = (ResolveANAME lib exchange zone rrSet s).2 := by
  have hname : ∀ v, ResolveANAME.fqdn zone v
      = if stringsHasSuffix v dot = true then v else v ++ dot ++ zone.Name ++ dot := by
    intro v
    unfold ResolveANAME.fqdn
    by_cases h : stringsHasSuffix v dot = true <;> simp [h]
  rw [ResolveANAME_traced]
  refine ⟨?_, ?_, rfl, rfl⟩
  · simp only [List.nil_append, hname]
  · intro v
    rw [← hname]
    exact stringsHasSuffix_fqdn zone v

/-- C11 on the values `t1` and `t2.` of an ANAME RRSet of `example.org`, with an
upstream whose AAAA exchanges fail: four questions, two per name. -/
theorem resolveANAME_questions_witness :
    (ResolveANAME exampleLib (traced exampleUpstream) exampleOrgZone
        { Host := [], Type_ := "ANAME".toList, Ttl := 30,
          Values := ["t1".toList, "t2.".toList] } (0, [])).2.2
      = [("t1.example.org.".toList, 1), ("t1.example.org.".toList, 28),
         ("t2.".toList, 1), ("t2.".toList, 28)] :=
  (resolveANAME_questions exampleLib exampleUpstream exampleOrgZone
    { Host := [], Type_ := "ANAME".toList, Ttl := 30,
      Values := ["t1".toList, "t2.".toList] } 0).1.trans (by decide)

/-! ## Answer synthesizer -/

/-- C12: the TTL `CreateRR` writes into the text it hands to the codec parser is 60
when the record's TTL is 0 and the record's TTL otherwise, so it is never 0; the text
is `$ORIGIN zone`, a line break, then host, that TTL in decimal, `IN`, type and value;
and a record made from an RRSet with TTL 0 is written with TTL 60. -/
theorem createRR_ttl (r : Record) :
    CreateRR.ttl r = (if r.Ttl = 0 then 60 else r.Ttl)
    ∧ CreateRR.ttl r ≠ 0
    ∧ CreateRR.text r
        = "$ORIGIN ".toList ++ r.ZoneName ++ "\n".toList
          ++ (if r.Host = [] then "@".toList else r.Host) ++ " ".toList
          ++ Nat.toDigits 10 (if r.Ttl = 0 then 60 else r.Ttl) ++ " IN ".toList ++ r.Type_
          ++ " ".toList ++ r.Value
    ∧ (∀ (RR : Type) (codec : Codec RR) (env : Env),
        CreateRR codec env r = none ↔ codec.NewRR (CreateRR.text r) = none)
    ∧ (∀ (zone : Zone) (host : GoString) (rrSet : RRSet) (value : GoString),
        rrSet.Ttl = 0 → r = FindZoneRecords.record zone host rrSet value →
        CreateRR.ttl r = 60 ∧ Nat.toDigits 10 (CreateRR.ttl r) = "60".toList) := by
  have httl : CreateRR.ttl r = (if r.Ttl = 0 then 60 else r.Ttl) := by
    unfold CreateRR.ttl
    by_cases h : r.Ttl = 0
    · simp [h]
    · have : ¬ r.Ttl ≤ 0 := by omega
      simp [h, this]
  refine ⟨httl, ?_, ?_, ?_, ?_⟩
  · rw [httl]
    by_cases h : r.Ttl = 0
    · simp [h]
    · simp [h]
  · unfold CreateRR.text CreateRR.host
    rw [httl]
  · intro RR codec env
    unfold CreateRR
    cases h : codec.NewRR (CreateRR.text r) with
    | none => simp
    | some rr =>
      simp only
      split_ifs <;> simp
  · intro zone host rrSet value h0 hr
    have : r.Ttl = 0 := by rw [hr]; exact h0
    rw [httl, if_pos this]
    exact ⟨rfl, by decide⟩

/-- C12 on the apex A record of `example.org`, whose RRSet has TTL 0: the text handed
to the parser carries the TTL 60. -/
theorem createRR_ttl_witness :
    CreateRR sampleCodec exampleEnv
        { ZoneName := "example.org".toList, Host := [], Type_ := "A".toList, Ttl := 0,
          Value := "192.0.2.1".toList }
      = some ("$ORIGIN example.org\n@ 60 IN A 192.0.2.1".toList, 0)
    ∧ CreateRR.ttl
        { ZoneName := "example.org".toList, Host := [], Type_ := "A".toList, Ttl := 0,
          Value := "192.0.2.1".toList } = 60 :=
  ⟨by decide,
   ((createRR_ttl
      { ZoneName := "example.org".toList, Host := [], Type_ := "A".toList, Ttl := 0,
        Value := "192.0.2.1".toList }).2.2.2.2 exampleOrgZone []
      { Host := [], Type_ := "A".toList, Ttl := 0, Values := ["192.0.2.1".toList] }
      "192.0.2.1".toList rfl rfl).1⟩

/-- The serial of a modification time: its residue modulo `2 ^ 32`. -/
theorem uint32_eq (t : Int) : (uint32 t : Int) = t % 4294967296 := by
  unfold uint32
  have : (2 : Int) ^ 32 = 4294967296 := by norm_num
  rw [this]
  omega

theorem UpdateSOASerialNumber_of_stat {RR : Type} (codec : Codec RR) (env : Env) (rr : RR)
    (t : Int) (h : env.Stat = some t) :
    UpdateSOASerialNumber codec env rr = codec.setSerial rr (uint32 t) := by
  unfold UpdateSOASerialNumber
  rw [h]

/-- C13, as stated, fails: the modification times `2 ^ 32 - 1` and `2 ^ 32` (and
likewise `-1` and `0`) increase, and the serials written for them are `4294967295`
and `0`. -/
theorem soa_serial_wraps_counterexample :
    (4294967295 : Int) < 4294967296
    ∧ UpdateSOASerialNumber sampleCodec (envModifiedAt 4294967295) ([], 0) = ([], 4294967295)
    ∧ UpdateSOASerialNumber sampleCodec (envModifiedAt 4294967296) ([], 0) = ([], 0)
    ∧ ¬ (uint32 4294967295 < uint32 4294967296)
    ∧ (-1 : Int) < 0
    ∧ UpdateSOASerialNumber sampleCodec (envModifiedAt (-1)) ([], 0) = ([], 4294967295)
    ∧ UpdateSOASerialNumber sampleCodec (envModifiedAt 0) ([], 0) = ([], 0)
    ∧ ¬ (uint32 (-1) < uint32 0) := by
  refine ⟨by decide, by decide, by decide, by decide, by decide, by decide, by decide,
    by decide⟩

/-- C13, amended: when `os.Stat` gives the modification time `t`, the serial
`UpdateSOASerialNumber` writes is `uint32 t`, the residue of `t` modulo `2 ^ 32`; equal
modification times give equal serials; and for modification times `t1 < t2` in the
same window of `2 ^ 32` seconds, in particular for `0 ≤ t1 < t2 < 2 ^ 32`, the serial
of `t1` is less than the serial of `t2`. -/
theorem soa_serial_monotone_in_window {RR : Type} (codec : Codec RR) (rr : RR)
    (env1 env2 : Env) (t1 t2 : Int) (h1 : env1.Stat = some t1) (h2 : env2.Stat = some t2) :
    UpdateSOASerialNumber codec env1 rr = codec.setSerial rr (uint32 t1)
    ∧ UpdateSOASerialNumber codec env2 rr = codec.setSerial rr (uint32 t2)
    ∧ (uint32 t1 : Int) = t1 % 2 ^ 32
    ∧ (t1 = t2 → UpdateSOASerialNumber codec env1 rr = UpdateSOASerialNumber codec env2 rr)
    ∧ (t1 < t2 → t1 / 2 ^ 32 = t2 / 2 ^ 32 → uint32 t1 < uint32 t2)
    ∧ (0 ≤ t1 → t1 < t2 → t2 < 2 ^ 32 → uint32 t1 < uint32 t2) := by
  have hp : (2 : Int) ^ 32 = 4294967296 := by norm_num
  have e1 := uint32_eq t1
  have e2 := uint32_eq t2
  rw [hp]
  refine ⟨UpdateSOASerialNumber_of_stat codec env1 rr t1 h1,
    UpdateSOASerialNumber_of_stat codec env2 rr t2 h2, e1, ?_, ?_, ?_⟩
  · intro h
    rw [UpdateSOASerialNumber_of_stat codec env1 rr t1 h1,
      UpdateSOASerialNumber_of_stat codec env2 rr t2 h2, h]
  · intro hlt hq
    omega
  · intro h0 hlt hub
    omega

/-- C13, amended, at the modification times `1700000000` and `1700000060`: the serials
written are these times, in the same order. -/
theorem soa_serial_monotone_in_window_witness :
    UpdateSOASerialNumber sampleCodec (envModifiedAt 1700000000) ([], 0) = ([], 1700000000)
    ∧ UpdateSOASerialNumber sampleCodec (envModifiedAt 1700000060) ([], 0) = ([], 1700000060)
    ∧ uint32 1700000000 < uint32 1700000060 :=
  ⟨(soa_serial_monotone_in_window sampleCodec ([], 0) (envModifiedAt 1700000000)
      (envModifiedAt 1700000060) 1700000000 1700000060 rfl rfl).1.trans (by decide),
   (soa_serial_monotone_in_window sampleCodec ([], 0) (envModifiedAt 1700000000)
      (envModifiedAt 1700000060) 1700000000 1700000060 rfl rfl).2.1.trans (by decide),
   (soa_serial_monotone_in_window sampleCodec ([], 0) (envModifiedAt 1700000000)
      (envModifiedAt 1700000060) 1700000000 1700000060 rfl rfl).2.2.2.2.2 (by decide)
      (by decide) (by decide)⟩

/-! ## Host label -/

theorem stringsTrimRight_append_dot (h : GoString) (hh : stringsHasSuffix h dot = false) :
    stringsTrimRight (h ++ dot) '.' = h := by
  unfold stringsTrimRight dot
  rw [List.rdropWhile_concat_pos _ _ _ (by simp)]
  rcases List.eq_nil_or_concat h with rfl | ⟨h1, c, rfl⟩
  · rfl
  · rw [List.concat_eq_append] at hh ⊢
    have hc : c ≠ '.' := by
      rintro rfl
      have : stringsHasSuffix (h1 ++ ['.']) dot = true := by
        unfold stringsHasSuffix dot
        rw [List.isSuffixOf_iff_suffix]
        exact List.suffix_append _ _
      rw [this] at hh
      exact absurd hh (by simp)
    exact List.rdropWhile_concat_neg _ _ _ (by simpa using hc)

theorem FindZoneRecords_host_self (zone : Zone) : FindZoneRecords.host zone zone.Name = [] := by
  have := FindZoneRecords_host_append zone []
  simpa [stringsTrimRight] using this

/-- Every record of a contribution carries the host label and the zone name. -/
theorem contribution_mem {σ : Type} (lib : Lib) (exchange : Upstream σ) (zone : Zone)
    (host : GoString) (recordType : Nat) (rrSet : RRSet) (s : σ) :
    ∀ r ∈ (contribution lib exchange zone host recordType rrSet s).1,
      r.Host = host ∧ r.ZoneName = zone.Name := by
  intro r hr
  have hdirect : ∀ r ∈ directRecords lib zone host recordType rrSet,
      r.Host = host ∧ r.ZoneName = zone.Name := by
    intro r hr
    unfold directRecords at hr
    split_ifs at hr
    · obtain ⟨v, -, rfl⟩ := List.mem_map.1 hr
      exact ⟨rfl, rfl⟩
    · simp at hr
  unfold contribution at hr
  by_cases hh : rrSet.Host = host
  · simp only [hh, ne_eq, not_true_eq_false, if_false] at hr
    split_ifs at hr
    · rcases List.mem_append.1 hr with h1 | h1
      · exact hdirect r h1
      · rw [ResolveANAME_eq] at h1
        obtain ⟨a, -, rfl⟩ := List.mem_map.1 h1
        exact ⟨hh, rfl⟩
    · exact hdirect r hr
  · simp [hh] at hr

/-- Every record `FindZoneRecords` returns carries the derived host label and the
zone name. -/
theorem FindZoneRecords_mem {σ : Type} (lib : Lib) (exchange : Upstream σ) (zone : Zone)
    (domain : GoString) (recordType : Nat) (s : σ) (records : List Record) (s1 : σ)
    (h : FindZoneRecords lib exchange zone domain recordType s = some (records, s1)) :
    ∀ r ∈ records, r.Host = FindZoneRecords.host zone domain ∧ r.ZoneName = zone.Name := by
  have hlen : zone.Name.length ≤ domain.length := by
    by_contra hn
    simp [FindZoneRecords, hn] at h
  rw [FindZoneRecords_eq lib exchange zone domain recordType s hlen] at h
  simp only [Option.some.injEq] at h
  have := concatState_forall_mem
    (contribution lib exchange zone (FindZoneRecords.host zone domain) recordType)
    (fun r => r.Host = FindZoneRecords.host zone domain ∧ r.ZoneName = zone.Name)
    (fun x s => contribution_mem lib exchange zone _ recordType x s) zone.RRSets s
  rw [h] at this
  exact this

/-- C14: for a label `h` that does not end with `.`, `FindZoneRecords` on the name
`h ++ "." ++ zone.Name` derives the host label `h` and answers with the contributions
for `h`; on the name `zone.Name` it derives the empty label; and every record it
returns, the ANAME-derived ones included, carries the derived label as `Host` and the
zone's name as `ZoneName`. -/
theorem host_label_derivation {σ : Type} (lib : Lib) (exchange : Upstream σ) (zone : Zone)
    (h : GoString) (recordType : Nat) (s : σ) (hh : stringsHasSuffix h dot = false) :
    FindZoneRecords.host zone (h ++ dot ++ zone.Name) = h
    ∧ FindZoneRecords.host zone zone.Name = []
    ∧ FindZoneRecords lib exchange zone (h ++ dot ++ zone.Name) recordType s
        = some (concatState (contribution lib exchange zone h recordType) zone.RRSets s)
    ∧ FindZoneRecords lib exchange zone zone.Name recordType s
        = some (concatState (contribution lib exchange zone [] recordType) zone.RRSets s)
    ∧ (∀ r ∈ (concatState (contribution lib exchange zone h recordType) zone.RRSets s).1,
        r.Host = h ∧ r.ZoneName = zone.Name)
    ∧ (∀ domain records s1,
        FindZoneRecords lib exchange zone domain recordType s = some (records, s1) →
        ∀ r ∈ records, r.Host = FindZoneRecords.host zone domain ∧ r.ZoneName = zone.Name) := by
  have h1 : FindZoneRecords.host zone (h ++ dot ++ zone.Name) = h := by
    rw [FindZoneRecords_host_append, stringsTrimRight_append_dot h hh]
  have h2 := FindZoneRecords_host_self zone
  refine ⟨h1, h2, ?_, ?_, ?_, ?_⟩
  · rw [FindZoneRecords_eq lib exchange zone _ recordType s
      (by simp only [List.length_append]; omega), h1]
  · rw [FindZoneRecords_eq lib exchange zone _ recordType s (le_refl _), h2]
  · exact concatState_forall_mem _ _
      (fun x s => contribution_mem lib exchange zone h recordType x s) zone.RRSets s
  · intro domain records s1 hrec
    exact FindZoneRecords_mem lib exchange zone domain recordType s records s1 hrec

/-- C14 on the zone `example.org`: the name `www.example.org` has the label `www`, and
an ANY query for the apex, with its A and ANAME RRSets, gets records that all carry
the empty label and the zone name. -/
theorem host_label_derivation_witness :
    FindZoneRecords.host exampleOrgZone "www.example.org".toList = "www".toList
    ∧ FindZoneRecords.host exampleOrgZone "example.org".toList = []
    ∧ (FindZoneRecords exampleLib exampleUpstream exampleOrgZone "example.org".toList
        TypeANY 0).map (fun x => x.1.map (fun r => (r.Host, r.ZoneName, r.Type_)))
      = some [([], "example.org".toList, "A".toList),
              ([], "example.org".toList, "ANAME".toList),
              ([], "example.org".toList, "A".toList)] :=
  ⟨(host_label_derivation exampleLib exampleUpstream exampleOrgZone "www".toList TypeANY 0
      (by decide)).1,
   (host_label_derivation exampleLib exampleUpstream exampleOrgZone "www".toList TypeANY 0
      (by decide)).2.1,
   by decide⟩

/-! ## Dropped records -/

theorem filterMap_map_some {α β : Type} (f : α → Option β) (l : List α) :
    (l.filterMap f).map some = (l.filter (fun x => (f x).isSome)).map f := by
  induction l with
  | nil => rfl
  | cons x xs ih =>
    cases h : f x with
    | none => simp [List.filterMap_cons, List.filter_cons, h, ih]
    | some y => simp [List.filterMap_cons, List.filter_cons, h, ih]

/-- C15: for a loaded database and a found zone, `GetZoneRRSet` returns status success
and, as answer, the records `CreateRR` builds from the records of `FindZoneRecords`, in
their order, those for which `CreateRR` returns nil being dropped: the answer is the
image under `CreateRR` of the sublist of the records for which `CreateRR` is not nil. -/
theorem getZoneRRSet_drops_failed_records {σ RR : Type} (lib : Lib) (codec : Codec RR)
    (env : Env) (exchange : Upstream σ) (domain : GoString) (recordType : Nat) (s : σ)
    (db : ZoneMap) (zone : Zone) (hdb : LoadDatabase env = some db)
    (hz : FindZone db domain = some zone) :
    ∃ records s1 answer,
      FindZoneRecords lib exchange zone domain recordType s = some (records, s1)
      ∧ GetZoneRRSet lib codec env exchange domain recordType s
          = some ((answer, RcodeSuccess), s1)
      ∧ answer = records.filterMap (CreateRR codec env)
      ∧ answer.map some
          = (records.filter (fun r => (CreateRR codec env r).isSome)).map (CreateRR codec env)
      ∧ (records.filter (fun r => (CreateRR codec env r).isSome)).Sublist records := by
  obtain ⟨records, s1, h1, h2⟩ :=
    GetZoneRRSet_found lib codec env exchange domain recordType s db zone hdb hz
  exact ⟨records, s1, _, h1, h2, rfl, filterMap_map_some _ _, List.filter_sublist _⟩

/-- C15 on the zone `example.net`, whose A RRSet has three values, the second one
rejected by the codec: the answer holds the records of the first and the third value,
with status success. -/
theorem getZoneRRSet_drops_failed_records_witness :
    GetZoneRRSet exampleLib sampleCodec exampleNetEnv unreachableUpstream
        "example.net".toList TypeA ()
      = some (([("$ORIGIN example.net\n@ 300 IN A 192.0.2.7".toList, 0),
                ("$ORIGIN example.net\n@ 300 IN A 192.0.2.9".toList, 0)], RcodeSuccess), ()) := by
  obtain ⟨records, s1, answer, h1, h2, h3, -, -⟩ :=
    getZoneRRSet_drops_failed_records exampleLib sampleCodec exampleNetEnv
      unreachableUpstream "example.net".toList TypeA () _ exampleNetZone rfl (by decide)
  have hrec : FindZoneRecords exampleLib unreachableUpstream exampleNetZone
      "example.net".toList TypeA ()
      = some ([{ ZoneName := "example.net".toList, Host := [], Type_ := "A".toList,
                 Ttl := 300, Value := "192.0.2.7".toList },
               { ZoneName := "example.net".toList, Host := [], Type_ := "A".toList,
                 Ttl := 300, Value := "oops!".toList },
               { ZoneName := "example.net".toList, Host := [], Type_ := "A".toList,
                 Ttl := 300, Value := "192.0.2.9".toList }], ()) := by decide
  rw [hrec] at h1
  simp only [Option.some.injEq, Prod.mk.injEq] at h1
  rw [h2, h3, ← h1.1]
  cases s1
  decide

/-! ## Candidates of a name given by its labels -/

theorem stringsSplit_of_no_dot (l : GoString) (hl : '.' ∉ l) : stringsSplit l '.' = [l] := by
  induction l with
  | nil => rfl
  | cons c cs ih =>
    have hc : c ≠ '.' := fun h => hl (by simp [h])
    have hcs : '.' ∉ cs := fun h => hl (List.mem_cons_of_mem _ h)
    simp only [stringsSplit, if_neg hc, ih hcs]

theorem stringsSplit_append_dot (l x : GoString) (hl : '.' ∉ l) :
    stringsSplit (l ++ '.' :: x) '.' = l :: stringsSplit x '.' := by
  induction l with
  | nil => simp [stringsSplit]
  | cons c cs ih =>
    have hc : c ≠ '.' := fun h => hl (by simp [h])
    have hcs : '.' ∉ cs := fun h => hl (List.mem_cons_of_mem _ h)
    simp only [List.cons_append, stringsSplit, if_neg hc, List.append_eq, ih hcs]

/-- Splitting the join of dot-free labels gives the labels back. -/
theorem stringsSplit_stringsJoin (ls : List GoString) (hne : ls ≠ [])
    (hlab : ∀ l ∈ ls, '.' ∉ l) : stringsSplit (stringsJoin ls dot) '.' = ls := by
  induction ls with
  | nil => exact absurd rfl hne
  | cons l rest ih =>
    cases rest with
    | nil => simpa [stringsJoin] using stringsSplit_of_no_dot l (hlab l (by simp))
    | cons l2 rest2 =>
      have h1 := ih (by simp) (fun x hx => hlab x (List.mem_cons_of_mem _ hx))
      simp only [stringsJoin, dot, List.append_assoc, List.singleton_append]
      rw [stringsSplit_append_dot l _ (hlab l (by simp))]
      simp only [dot] at h1
      rw [h1]

/-- C16: for a name made of `n ≥ 1` labels without dots, joined by `.`,
`GetSearchingZoneNames` returns `n` candidates, the `i`-th being the labels from `i`
on joined by `.`; the first is the name itself, the candidate at `i` is its label `i`,
a dot and the candidate at `i + 1`, and the lengths strictly decrease. -/
theorem getSearchingZoneNames_labels (ls : List GoString) (hne : ls ≠ [])
    (hlab : ∀ l ∈ ls, '.' ∉ l) :
    GetSearchingZoneNames (stringsJoin ls dot)
        = (List.range ls.length).map (fun i => stringsJoin (ls.drop i) dot)
    ∧ (GetSearchingZoneNames (stringsJoin ls dot)).length = ls.length
    ∧ (GetSearchingZoneNames (stringsJoin ls dot)).head? = some (stringsJoin ls dot)
    ∧ (∀ i, i + 1 < ls.length →
        stringsJoin (ls.drop i) dot
          = ls.getD i [] ++ dot ++ stringsJoin (ls.drop (i + 1)) dot)
    ∧ (GetSearchingZoneNames (stringsJoin ls dot)).Pairwise
        (fun a b => b.length < a.length) := by
  have hmap : GetSearchingZoneNames (stringsJoin ls dot)
      = (List.range ls.length).map (fun i => stringsJoin (ls.drop i) dot) := by
    rw [GetSearchingZoneNames_eq_map, stringsSplit_stringsJoin ls hne hlab]
  refine ⟨hmap, ?_, ?_, ?_, GetSearchingZoneNames_pairwise _⟩
  · rw [hmap]; simp
  · rw [GetSearchingZoneNames_eq]; rfl
  · intro i hi
    have hi1 : i < ls.length := by omega
    rw [List.drop_eq_getElem_cons hi1]
    rw [stringsJoin_cons_of_ne_nil]
    · simp [List.getD_eq_getElem?_getD, List.getElem?_eq_getElem hi1]
    · intro h
      have := congrArg List.length h
      simp at this
      omega

/-- C16 on the labels `a`, `b`, `c`: the candidates of `a.b.c` are `a.b.c`, `b.c`
and `c`. -/
theorem getSearchingZoneNames_labels_witness :
    GetSearchingZoneNames "a.b.c".toList = ["a.b.c".toList, "b.c".toList, "c".toList] :=
  (getSearchingZoneNames_labels ["a".toList, "b".toList, "c".toList] (by decide)
    (by decide)).1.trans (by decide)

/-! ## The ANAME rule -/

theorem concatState_append {α β σ : Type} (c : α → σ → List β × σ) (l1 l2 : List α) (s : σ) :
    concatState c (l1 ++ l2) s
      = ((concatState c l1 s).1 ++ (concatState c l2 (concatState c l1 s).2).1,
          (concatState c l2 (concatState c l1 s).2).2) := by
  induction l1 generalizing s with
  | nil => simp [concatState]
  | cons x xs ih => simp [concatState, ih, List.append_assoc]

/-- The contribution of a host-matching ANAME RRSet under ANY: its values as ANAME
records, then the output of the resolver. -/
theorem contribution_aname_any {σ : Type} (lib : Lib) (exchange : Upstream σ) (zone : Zone)
    (host : GoString) (r : RRSet) (s : σ) (hhost : r.Host = host)
    (htype : r.Type_ = "ANAME".toList) :
    contribution lib exchange zone host TypeANY r s
      = (r.Values.map (fun v =>
            ({ ZoneName := zone.Name, Host := host, Type_ := "ANAME".toList, Ttl := r.Ttl,
               Value := v } : Record))
          ++ (ResolveANAME lib exchange zone r s).1, (ResolveANAME lib exchange zone r s).2) := by
  have ha : anameMatch TypeANY r := ⟨htype, Or.inl rfl⟩
  have hd : directMatch lib TypeANY r := Or.inr (Or.inl rfl)
  simp only [contribution, directRecords, hhost, ne_eq, not_true_eq_false, if_false, ha, hd,
    if_true, htype]

/-- The contribution of a host-matching ANAME RRSet under a query type whose mnemonic
is not `ANAME`, that is not ANY and for which the ANAME rule holds: the output of the
resolver alone. -/
theorem contribution_aname_family {σ : Type} (lib : Lib) (exchange : Upstream σ)
    (zone : Zone) (host : GoString) (recordType : Nat) (r : RRSet) (s : σ)
    (hhost : r.Host = host) (htype : r.Type_ = "ANAME".toList)
    (hq : recordType = TypeA ∨ recordType = TypeAAAA)
    (hname : lib.typeString recordType ≠ "ANAME".toList) :
    contribution lib exchange zone host recordType r s
      = ResolveANAME lib exchange zone r s := by
  have ha : anameMatch recordType r := ⟨htype, Or.inr hq⟩
  have hd : ¬ directMatch lib recordType r := by
    unfold directMatch
    rw [htype]
    rintro (h | h | h)
    · exact hname h.symm
    · rcases hq with rfl | rfl <;> exact absurd h (by decide)
    · exact absurd h (by decide)
  simp only [contribution, directRecords, hhost, ne_eq, not_true_eq_false, if_false, ha, hd,
    if_true, List.nil_append]

/-- The records of the resolver have type `A` or `AAAA`, never `ANAME`. -/
theorem ResolveANAME_type {σ : Type} (lib : Lib) (exchange : Upstream σ) (zone : Zone)
    (r : RRSet) (s : σ) (hA : lib.typeString TypeA = "A".toList)
    (hAAAA : lib.typeString TypeAAAA = "AAAA".toList) :
    ∀ x ∈ (ResolveANAME lib exchange zone r s).1,
      (x.Type_ = "A".toList ∨ x.Type_ = "AAAA".toList) ∧ x.Type_ ≠ "ANAME".toList := by
  intro x hx
  rw [ResolveANAME_eq] at hx
  obtain ⟨a, ha, rfl⟩ := List.mem_map.1 hx
  rcases upstreamAnswers_family exchange zone r.Values s a ha with h | h
  · have : (answerRecord lib zone r a).Type_ = "A".toList := by
      simp only [answerRecord, h, hA]
    rw [this]
    exact ⟨Or.inl rfl, by decide⟩
  · have : (answerRecord lib zone r a).Type_ = "AAAA".toList := by
      simp only [answerRecord, h, hAAAA]
    rw [this]
    exact ⟨Or.inr rfl, by decide⟩

/-- The answer of `FindZoneRecords` around one RRSet `r` of the zone: the contributions
of the RRSets before it, its own, and those of the RRSets after it. -/
theorem FindZoneRecords_around {σ : Type} (lib : Lib) (exchange : Upstream σ) (zone : Zone)
    (pre : GoString) (recordType : Nat) (s : σ) (l1 l2 : List RRSet) (r : RRSet)
    (hsplit : zone.RRSets = l1 ++ r :: l2) :
    FindZoneRecords lib exchange zone (pre ++ zone.Name) recordType s
      = some
        ((concatState (contribution lib exchange zone (stringsTrimRight pre '.') recordType)
            l1 s).1
          ++ (contribution lib exchange zone (stringsTrimRight pre '.') recordType r
              (concatState (contribution lib exchange zone (stringsTrimRight pre '.')
                recordType) l1 s).2).1
          ++ (concatState (contribution lib exchange zone (stringsTrimRight pre '.') recordType)
              l2
              (contribution lib exchange zone (stringsTrimRight pre '.') recordType r
                (concatState (contribution lib exchange zone (stringsTrimRight pre '.')
                  recordType) l1 s).2).2).1,
         (concatState (contribution lib exchange zone (stringsTrimRight pre '.') recordType)
              l2
              (contribution lib exchange zone (stringsTrimRight pre '.') recordType r
                (concatState (contribution lib exchange zone (stringsTrimRight pre '.')
                  recordType) l1 s).2).2).2) := by
  rw [FindZoneRecords_eq lib exchange zone _ recordType s (by simp),
    FindZoneRecords_host_append, hsplit, concatState_append]
  simp only [concatState, List.append_assoc]

/-- C17: the ANAME rule applies independently of the direct-match rule.  For a
host-matching RRSet `r` of type `ANAME`, between the RRSets `l1` and `l2` of the zone:
under ANY, `FindZoneRecords` returns the records of `l1`, then one `ANAME` record per
value of `r`, then the records of `ResolveANAME` for `r`, then the records of `l2`;
under A or AAAA it returns the records of `l1`, the records of `ResolveANAME` for `r`
and the records of `l2`, and no record of `ResolveANAME` has type `ANAME`.  The
mnemonics of the type codes A and AAAA are taken from the DNS library. -/
theorem aname_rule_independent {σ : Type} (lib : Lib) (exchange : Upstream σ) (zone : Zone)
    (pre : GoString) (s : σ) (l1 l2 : List RRSet) (r : RRSet)
    (hsplit : zone.RRSets = l1 ++ r :: l2)
    (hhost : r.Host = stringsTrimRight pre '.') (htype : r.Type_ = "ANAME".toList)
    (hA : lib.typeString TypeA = "A".toList)
    (hAAAA : lib.typeString TypeAAAA = "AAAA".toList) :
    (∀ before s1 after s3,
      concatState (contribution lib exchange zone (stringsTrimRight pre '.') TypeANY) l1 s
        = (before, s1) →
      concatState (contribution lib exchange zone (stringsTrimRight pre '.') TypeANY) l2
        (ResolveANAME lib exchange zone r s1).2 = (after, s3) →
      FindZoneRecords lib exchange zone (pre ++ zone.Name) TypeANY s
        = some (before
            ++ r.Values.map (fun v =>
                ({ ZoneName := zone.Name, Host := stringsTrimRight pre '.',
                   Type_ := "ANAME".toList, Ttl := r.Ttl, Value := v } : Record))
            ++ (ResolveANAME lib exchange zone r s1).1 ++ after, s3))
    ∧ (∀ recordType, recordType = TypeA ∨ recordType = TypeAAAA →
      ∀ before s1 after s3,
      concatState (contribution lib exchange zone (stringsTrimRight pre '.') recordType) l1 s
        = (before, s1) →
      concatState (contribution lib exchange zone (stringsTrimRight pre '.') recordType) l2
        (ResolveANAME lib exchange zone r s1).2 = (after, s3) →
      FindZoneRecords lib exchange zone (pre ++ zone.Name) recordType s
        = some (before ++ (ResolveANAME lib exchange zone r s1).1 ++ after, s3))
    ∧ (∀ s1, ∀ x ∈ (ResolveANAME lib exchange zone r s1).1,
        (x.Type_ = "A".toList ∨ x.Type_ = "AAAA".toList) ∧ x.Type_ ≠ "ANAME".toList) := by
  refine ⟨?_, ?_, fun s1 => ResolveANAME_type lib exchange zone r s1 hA hAAAA⟩
  · intro before s1 after s3 h1 h2
    rw [FindZoneRecords_around lib exchange zone pre TypeANY s l1 l2 r hsplit, h1]
    simp only [contribution_aname_any lib exchange zone _ r s1 hhost htype, h2,
      List.append_assoc]
  · intro recordType hq before s1 after s3 h1 h2
    have hname : lib.typeString recordType ≠ "ANAME".toList := by
      rcases hq with rfl | rfl
      · rw [hA]; decide
      · rw [hAAAA]; decide
    rw [FindZoneRecords_around lib exchange zone pre recordType s l1 l2 r hsplit, h1]
    simp only [contribution_aname_family lib exchange zone _ recordType r s1 hhost htype hq
      hname, h2]

/-- C17 on the apex of `example.org`, whose third RRSet is an ANAME after an A RRSet
and a CNAME RRSet of another host: an ANY query gets the A record, the ANAME record
and the resolved record; an A query gets the A record and the resolved record. -/
theorem aname_rule_independent_witness :
    FindZoneRecords exampleLib exampleUpstream exampleOrgZone "example.org".toList TypeANY 0
      = some ([{ ZoneName := "example.org".toList, Host := [], Type_ := "A".toList,
                 Ttl := 0, Value := "192.0.2.1".toList },
               { ZoneName := "example.org".toList, Host := [], Type_ := "ANAME".toList,
                 Ttl := 30, Value := "target".toList },
               { ZoneName := "example.org".toList, Host := [], Type_ := "A".toList,
                 Ttl := 30, Value := "192.0.2.0".toList }], 2)
    ∧ FindZoneRecords exampleLib exampleUpstream exampleOrgZone "example.org".toList TypeA 0
      = some ([{ ZoneName := "example.org".toList, Host := [], Type_ := "A".toList,
                 Ttl := 0, Value := "192.0.2.1".toList },
               { ZoneName := "example.org".toList, Host := [], Type_ := "A".toList,
                 Ttl := 30, Value := "192.0.2.0".toList }], 2) :=
  ⟨((aname_rule_independent exampleLib exampleUpstream exampleOrgZone [] 0
      [{ Host := [], Type_ := "A".toList, Ttl := 0, Values := ["192.0.2.1".toList] },
       { Host := "www".toList, Type_ := "CNAME".toList, Ttl := 120,
         Values := ["example.org.".toList, "alt".toList] }] []
      { Host := [], Type_ := "ANAME".toList, Ttl := 30, Values := ["target".toList] }
      rfl (by decide) rfl (by decide) (by decide)).1
      [{ ZoneName := "example.org".toList, Host := [], Type_ := "A".toList,
         Ttl := 0, Value := "192.0.2.1".toList }] 0 [] 2 (by decide) (by decide)).trans
      (by decide),
   ((aname_rule_independent exampleLib exampleUpstream exampleOrgZone [] 0
      [{ Host := [], Type_ := "A".toList, Ttl := 0, Values := ["192.0.2.1".toList] },
       { Host := "www".toList, Type_ := "CNAME".toList, Ttl := 120,
         Values := ["example.org.".toList, "alt".toList] }] []
      { Host := [], Type_ := "ANAME".toList, Ttl := 30, Values := ["target".toList] }
      rfl (by decide) rfl (by decide) (by decide)).2.1 TypeA (Or.inl rfl)
      [{ ZoneName := "example.org".toList, Host := [], Type_ := "A".toList,
         Ttl := 0, Value := "192.0.2.1".toList }] 0 [] 2 (by decide) (by decide)).trans
      (by decide)⟩

/-! ## The slice of the host label -/

/-- The name of a zone `FindZone` returns is a suffix of the queried name. -/
theorem FindZone_name_suffix (db : ZoneMap) (d : GoString) (z : Zone)
    (h : FindZone db d = some z) : z.Name <:+ d := by
  rcases (FindZone_some_longest db d z h).2.1 with h1 | h1
  · rw [h1]
  · exact (List.suffix_append dot z.Name).trans (List.isSuffixOf_iff_suffix.1 h1)

/-- C18: when `FindZone` returns a zone for a name, the zone's name is not longer than
the name and is a suffix of it, so the slice `domain[:len(domain)-len(zone.Name)]` is in
range (it is the name without that suffix), `FindZoneRecords` on that zone and name
does not panic for any query type, and neither does `GetZoneRRSet`. -/
theorem findZone_slice_in_range {σ RR : Type} (lib : Lib) (codec : Codec RR) (env : Env)
    (exchange : Upstream σ) (db : ZoneMap) (d : GoString) (z : Zone) (s : σ)
    (h : FindZone db d = some z) :
    z.Name.length ≤ d.length
    ∧ stringsHasSuffix d z.Name = true
    ∧ d.take (d.length - z.Name.length) ++ z.Name = d
    ∧ (∀ recordType, FindZoneRecords lib exchange z d recordType s ≠ none)
    ∧ (∀ recordType, LoadDatabase env = some db →
        GetZoneRRSet lib codec env exchange d recordType s ≠ none) := by
  have hlen := FindZone_name_length_le db d z h
  have hsuf := FindZone_name_suffix db d z h
  refine ⟨hlen, ?_, ?_, ?_, ?_⟩
  · unfold stringsHasSuffix
    exact List.isSuffixOf_iff_suffix.2 hsuf
  · obtain ⟨p, hp⟩ := hsuf
    subst hp
    simp
  · intro recordType
    rw [FindZoneRecords_eq lib exchange z d recordType s hlen]
    simp
  · intro recordType hdb
    obtain ⟨records, s1, -, h2⟩ :=
      GetZoneRRSet_found lib codec env exchange d recordType s db z hdb h
    rw [h2]
    simp

/-- C18 on the name `a.b.c` over the keys `b.c` and `c`: the zone found is `b.c`, three
bytes against five, and `FindZoneRecords` returns. -/
theorem findZone_slice_in_range_witness :
    FindZone exampleZoneMap "a.b.c".toList = some { Name := "b.c".toList, RRSets := [] }
    ∧ "b.c".toList.length ≤ "a.b.c".toList.length
    ∧ FindZoneRecords exampleLib unreachableUpstream { Name := "b.c".toList, RRSets := [] }
        "a.b.c".toList TypeA () ≠ none :=
  ⟨by decide,
   (@findZone_slice_in_range Unit Unit exampleLib rejectingCodec exampleEnv
      unreachableUpstream exampleZoneMap "a.b.c".toList
      { Name := "b.c".toList, RRSets := [] } () (by decide)).1,
   (@findZone_slice_in_range Unit Unit exampleLib rejectingCodec exampleEnv
      unreachableUpstream exampleZoneMap "a.b.c".toList
      { Name := "b.c".toList, RRSets := [] } () (by decide)).2.2.2.1 TypeA⟩

/-! ## Queries that do not consult the upstream -/

theorem concatState_of_pure {α β σ : Type} (c : α → σ → List β × σ) (f : α → List β)
    (l : List α) (h : ∀ x ∈ l, ∀ s, c x s = (f x, s)) (s : σ) :
    concatState c l s = (l.flatMap f, s) := by
  induction l generalizing s with
  | nil => simp [concatState]
  | cons x xs ih =>
    simp only [concatState, h x (by simp) s, List.flatMap_cons]
    rw [ih (fun y hy => h y (List.mem_cons_of_mem _ hy))]

/-- Without the ANAME rule the contribution of an RRSet is its direct-match records,
and the state of the upstream stays as it is. -/
theorem contribution_of_not_aname {σ : Type} (lib : Lib) (exchange : Upstream σ)
    (zone : Zone) (host : GoString) (recordType : Nat) (r : RRSet) (s : σ)
    (h : r.Host = host → ¬ anameMatch recordType r) :
    contribution lib exchange zone host recordType r s
      = (if r.Host = host then directRecords lib zone host recordType r else [], s) := by
  unfold contribution
  by_cases hh : r.Host = host
  · simp only [hh, ne_eq, not_true_eq_false, if_false, if_neg (h hh), if_true]
  · simp only [hh, ne_eq, not_false_eq_true, if_true, if_false]

/-- The answer when no RRSet of the queried host falls under the ANAME rule. -/
theorem FindZoneRecords_of_not_aname {σ : Type} (lib : Lib) (exchange : Upstream σ)
    (zone : Zone) (domain : GoString) (recordType : Nat) (s : σ)
    (h : (recordType ≠ TypeANY ∧ recordType ≠ TypeA ∧ recordType ≠ TypeAAAA)
      ∨ (∀ r ∈ zone.RRSets, r.Host = FindZoneRecords.host zone domain →
          r.Type_ ≠ "ANAME".toList)) :
    FindZoneRecords lib exchange zone domain recordType s
      = if zone.Name.length ≤ domain.length then
          some (zone.RRSets.flatMap (fun r =>
            if r.Host = FindZoneRecords.host zone domain then
              directRecords lib zone (FindZoneRecords.host zone domain) recordType r
            else []), s)
        else none := by
  by_cases hlen : zone.Name.length ≤ domain.length
  · rw [if_pos hlen, FindZoneRecords_eq lib exchange zone domain recordType s hlen]
    congr 1
    apply concatState_of_pure
    intro r hr s1
    apply contribution_of_not_aname
    intro hhost ha
    rcases h with ⟨h1, h2, h3⟩ | h
    · rcases ha.2 with h4 | h4 | h4
      · exact h1 h4
      · exact h2 h4
      · exact h3 h4
    · exact h r hr hhost ha.1
  · rw [if_neg hlen]
    unfold FindZoneRecords
    rw [if_neg hlen]

/-- C19: when the query type is none of ANY, A and AAAA, or no RRSet of the zone at
the derived host label has type `ANAME`, `FindZoneRecords` returns the direct-match
records of the RRSets of that host and leaves the state of the upstream as it was;
over the logging upstream no question is logged; and the records are the same for any
two upstreams. -/
theorem findZoneRecords_without_upstream {σ σ2 : Type} (lib : Lib) (exchange : Upstream σ)
    (exchange2 : Upstream σ2) (zone : Zone) (domain : GoString) (recordType : Nat) (s : σ)
    (s2 : σ2)
    (h : (recordType ≠ TypeANY ∧ recordType ≠ TypeA ∧ recordType ≠ TypeAAAA)
      ∨ (∀ r ∈ zone.RRSets, r.Host = FindZoneRecords.host zone domain →
          r.Type_ ≠ "ANAME".toList)) :
    FindZoneRecords lib exchange zone domain recordType s
        = (if zone.Name.length ≤ domain.length then
            some (zone.RRSets.flatMap (fun r =>
              if r.Host = FindZoneRecords.host zone domain then
                directRecords lib zone (FindZoneRecords.host zone domain) recordType r
              else []), s)
          else none)
    ∧ (FindZoneRecords lib (traced exchange) zone domain recordType (s, [])).map
          (fun x => x.2.2)
        = (if zone.Name.length ≤ domain.length then some [] else none)
    ∧ (FindZoneRecords lib exchange zone domain recordType s).map (fun x => x.1)
        = (FindZoneRecords lib exchange2 zone domain recordType s2).map (fun x => x.1) := by
  refine ⟨FindZoneRecords_of_not_aname lib exchange zone domain recordType s h, ?_, ?_⟩
  · rw [FindZoneRecords_of_not_aname lib (traced exchange) zone domain recordType (s, []) h]
    split_ifs <;> rfl
  · rw [FindZoneRecords_of_not_aname lib exchange zone domain recordType s h,
      FindZoneRecords_of_not_aname lib exchange2 zone domain recordType s2 h]
    split_ifs <;> rfl

/-- C19 on `www.example.org`, whose only RRSet is a CNAME: an A query gets the two
CNAME records, asks the upstream nothing and leaves its state at 0. -/
theorem findZoneRecords_without_upstream_witness :
    FindZoneRecords exampleLib exampleUpstream exampleOrgZone "www.example.org".toList TypeA 0
      = some ([{ ZoneName := "example.org".toList, Host := "www".toList,
                 Type_ := "CNAME".toList, Ttl := 120, Value := "example.org.".toList },
               { ZoneName := "example.org".toList, Host := "www".toList,
                 Type_ := "CNAME".toList, Ttl := 120, Value := "alt".toList }], 0)
    ∧ (FindZoneRecords exampleLib (traced exampleUpstream) exampleOrgZone
          "www.example.org".toList TypeA (0, [])).map (fun x => x.2.2) = some [] :=
  ⟨(findZoneRecords_without_upstream exampleLib exampleUpstream unreachableUpstream
      exampleOrgZone "www.example.org".toList TypeA 0 ()
      (Or.inr (by decide))).1.trans (by decide),
   (findZoneRecords_without_upstream exampleLib exampleUpstream unreachableUpstream
      exampleOrgZone "www.example.org".toList TypeA 0 ()
      (Or.inr (by decide))).2.1.trans (by decide)⟩

/-! ## Address families -/

theorem concatState_congr_mem {α β σ : Type} (c c1 : α → σ → List β × σ) (l : List α)
    (h : ∀ x ∈ l, ∀ s, c x s = c1 x s) (s : σ) :
    concatState c l s = concatState c1 l s := by
  induction l generalizing s with
  | nil => rfl
  | cons x xs ih =>
    simp only [concatState, h x (by simp) s]
    rw [ih (fun y hy => h y (List.mem_cons_of_mem _ hy))]

/-- The answer to an A or AAAA query when every RRSet of the queried host is an ANAME
RRSet: the outputs of the resolver for those RRSets, in order. -/
theorem FindZoneRecords_aname_only {σ : Type} (lib : Lib) (exchange : Upstream σ)
    (zone : Zone) (domain : GoString) (recordType : Nat) (s : σ)
    (hlen : zone.Name.length ≤ domain.length)
    (hall : ∀ r ∈ zone.RRSets, r.Host = FindZoneRecords.host zone domain →
      r.Type_ = "ANAME".toList)
    (hq : recordType = TypeA ∨ recordType = TypeAAAA)
    (hname : lib.typeString recordType ≠ "ANAME".toList) :
    FindZoneRecords lib exchange zone domain recordType s
      = some (concatState (fun r => ResolveANAME lib exchange zone r)
          (zone.RRSets.filter (fun x => decide (x.Host = FindZoneRecords.host zone domain)))
          s) := by
  rw [FindZoneRecords_eq lib exchange zone domain recordType s hlen,
    concatState_contribution_filter]
  congr 1
  apply concatState_congr_mem
  intro r hr s1
  obtain ⟨hmem, hhost⟩ := List.mem_filter.1 hr
  have hhost1 : r.Host = FindZoneRecords.host zone domain := of_decide_eq_true hhost
  exact contribution_aname_family lib exchange zone _ recordType r s1 hhost1
    (hall r hmem hhost1) hq hname

/-- C20: when every RRSet of the zone at the derived host label has type `ANAME`,
`FindZoneRecords` returns the same records and the same state for the query type A and
for the query type AAAA: the outputs of `ResolveANAME` for those RRSets, in order, each
made of the upstream answers of both address families.  The mnemonics of the type
codes A and AAAA are taken from the DNS library. -/
theorem findZoneRecords_family_blind {σ : Type} (lib : Lib) (exchange : Upstream σ)
    (zone : Zone) (domain : GoString) (s : σ)
    (hall : ∀ r ∈ zone.RRSets, r.Host = FindZoneRecords.host zone domain →
      r.Type_ = "ANAME".toList)
    (hA : lib.typeString TypeA = "A".toList)
    (hAAAA : lib.typeString TypeAAAA = "AAAA".toList) :
    FindZoneRecords lib exchange zone domain TypeA s
        = FindZoneRecords lib exchange zone domain TypeAAAA s
    ∧ (zone.Name.length ≤ domain.length →
        FindZoneRecords lib exchange zone domain TypeA s
          = some (concatState (fun r => ResolveANAME lib exchange zone r)
              (zone.RRSets.filter
                (fun x => decide (x.Host = FindZoneRecords.host zone domain))) s))
    ∧ (∀ r s1, (ResolveANAME lib exchange zone r s1).1
        = ((upstreamAnswers exchange zone r.Values s1).1).map (answerRecord lib zone r)) := by
  have hnA : lib.typeString TypeA ≠ "ANAME".toList := by rw [hA]; decide
  have hnAAAA : lib.typeString TypeAAAA ≠ "ANAME".toList := by rw [hAAAA]; decide
  refine ⟨?_, ?_, ?_⟩
  · by_cases hlen : zone.Name.length ≤ domain.length
    · rw [FindZoneRecords_aname_only lib exchange zone domain TypeA s hlen hall (Or.inl rfl)
          hnA,
        FindZoneRecords_aname_only lib exchange zone domain TypeAAAA s hlen hall (Or.inr rfl)
          hnAAAA]
    · simp [FindZoneRecords, hlen]
  · intro hlen
    exact FindZoneRecords_aname_only lib exchange zone domain TypeA s hlen hall (Or.inl rfl)
      hnA
  · intro r s1
    rw [ResolveANAME_eq]

/-- C20 on the apex of `example.io`, an ANAME RRSet alone, with an upstream that has an
A and an AAAA address for the target: the A query and the AAAA query both get the
record of type `A` and the record of type `AAAA`. -/
theorem findZoneRecords_family_blind_witness :
    FindZoneRecords exampleLib dualStackUpstream exampleIoZone "example.io".toList TypeA ()
      = some ([{ ZoneName := "example.io".toList, Host := [], Type_ := "A".toList,
                 Ttl := 30, Value := "192.0.2.1".toList },
               { ZoneName := "example.io".toList, Host := [], Type_ := "AAAA".toList,
                 Ttl := 30, Value := "32.1.13.184.0.0.0.0.0.0.0.0.0.0.0.1".toList }], ())
    ∧ FindZoneRecords exampleLib dualStackUpstream exampleIoZone "example.io".toList
        TypeAAAA ()
      = FindZoneRecords exampleLib dualStackUpstream exampleIoZone "example.io".toList
        TypeA () :=
  ⟨((findZoneRecords_family_blind exampleLib dualStackUpstream exampleIoZone
      "example.io".toList () (by decide) (by decide) (by decide)).2.1 (by decide)).trans
      (by decide),
   (findZoneRecords_family_blind exampleLib dualStackUpstream exampleIoZone
      "example.io".toList () (by decide) (by decide) (by decide)).1.symm⟩

end DomainRegistrar
